import Mathlib

/-!
# Verification of the test-automation reporting backend

Shallow embedding of the backend (`main.py` endpoint handlers and the
`schemas.py` pydantic models) into Lean.  The document store (`database.py`,
not part of the sources) is modelled from the specification: a
collection-oriented store supporting insert (returning a generated unique
identifier), find-by-filter, sort, limit, and update-by-id.

Machine integers do not overflow here (Python ints are unbounded), so numeric
fields are `Int`/`Nat`.  Timestamps (`datetime.now(timezone.utc)`) are
modelled as an abstract `Nat` clock value passed to each operation.
-/

namespace Backend

/-! ## Object ids

MongoDB `ObjectId` string handles: 24 hexadecimal characters.  Generated ids
are modelled as the zero-padded hexadecimal rendering of a fresh counter
(padded to 24 characters; `Modelled from the spec:` the store is only assumed
to hand out *generated unique identifiers* in its native 24-hex format, so any
injective rendering into that format is faithful). -/

/-- Hex digit character for a value `n % 16` (lowercase, as `str(ObjectId)`). -/
def hexChar (n : Nat) : Char :=
  if n < 10 then Char.ofNat (48 + n) else Char.ofNat (87 + n)

/-- Numeric value of a hex character (0 for non-hex characters). -/
def hexVal (c : Char) : Nat :=
  if 48 ≤ c.toNat ∧ c.toNat ≤ 57 then c.toNat - 48
  else if 97 ≤ c.toNat ∧ c.toNat ≤ 102 then c.toNat - 87
  else if 65 ≤ c.toNat ∧ c.toNat ≤ 70 then c.toNat - 55
  else 0

/-- Big-endian hex digits, fuel-based so the kernel can evaluate it (`fuel`
bounds the digit count; any `fuel` with `n < 16 ^ fuel` is enough). -/
def hexDigitsAux : Nat → Nat → List Char
  | 0, _ => []
  | fuel + 1, n =>
    if n < 16 then [hexChar n]
    else hexDigitsAux fuel (n / 16) ++ [hexChar (n % 16)]

/-- Big-endian hex digits of `n` (at least one digit). -/
def hexDigits (n : Nat) : List Char := hexDigitsAux (n + 1) n

/-- Generated id: hex rendering of the counter, left-padded with zeros to 24
characters (ids never exceed 24 characters while the counter stays below
`16 ^ 24`, the size of the real ObjectId space). -/
def genId (n : Nat) : String :=
  ⟨List.replicate (24 - (hexDigits n).length) '0' ++ hexDigits n⟩

/-- Value of a hex string (used to show `genId` is injective). -/
def parseHexNat (s : String) : Nat :=
  s.data.foldl (fun a c => 16 * a + hexVal c) 0

/-! ## Stable insertion sort

`db.find(...).sort(key, 1)` is modelled as a stable sort by a boolean
total preorder (MongoDB sorts missing values first; stability is the
embedding's choice of a deterministic order among ties). -/

/-- Insert `a` into `l`, before the first element `b` with `le a b`. -/
def insertLe (le : α → α → Bool) (a : α) : List α → List α
  | [] => [a]
  | b :: bs => if le a b then a :: b :: bs else b :: insertLe le a bs

/-- Stable insertion sort by the boolean preorder `le`. -/
def sortLe (le : α → α → Bool) : List α → List α
  | [] => []
  | a :: as => insertLe le a (sortLe le as)

/-- Comparison on optional sort keys: MongoDB sorts records missing the sort
field before all records that have it. -/
def optLe [LinearOrder α] : Option α → Option α → Bool
  | none, _ => true
  | some _, none => false
  | some a, some b => decide (a ≤ b)

/-! ## Data model (`schemas.py`)

The pydantic models.  `Literal` enum fields are kept as `String` in the
stored documents (as `model_dump` stores them); validation checks membership
in the allowed values.  Validated models double as the stored documents,
since the handlers store `model.model_dump()` directly. -/

/-- Allowed values of the status enum (`schemas.py` `Literal`). -/
def statusValues : List String := ["running", "passed", "failed", "skipped", "blocked"]

/-- Allowed values of the log level enum (`schemas.py` `Literal`). -/
def levelValues : List String := ["INFO", "WARN", "ERROR", "DEBUG", "STEP"]

/-- Stored/validated form of pydantic `TestRun`. -/
structure TestRun where
  name : String
  environment : Option String := none
  branch : Option String := none
  build : Option String := none
  status : String := "running"
  started_at : Option Nat := none
  finished_at : Option Nat := none
  duration_ms : Option Int := none
  total : Int := 0
  passed : Int := 0
  failed : Int := 0
  skipped : Int := 0
  blocked : Int := 0
  platform : Option String := none
  tags : List String := []
deriving Repr, DecidableEq

/-- Stored/validated form of pydantic `TestSuite`.  Note: `total`, `passed`,
`failed` and `skipped` carry no `ge=0` bound in `schemas.py`. -/
structure TestSuite where
  run_id : String
  name : String
  status : String := "running"
  duration_ms : Option Int := none
  total : Int := 0
  passed : Int := 0
  failed : Int := 0
  skipped : Int := 0
  order : Option Int := none
deriving Repr, DecidableEq

/-- Stored/validated form of pydantic `TestCase`. -/
structure TestCase where
  run_id : String
  suite_id : String
  name : String
  class_name : Option String := none
  status : String := "running"
  duration_ms : Option Int := none
  error_message : Option String := none
  error_trace : Option String := none
  retries : Int := 0
  category : Option String := none
  author : Option String := none
deriving Repr, DecidableEq

/-- Stored/validated form of pydantic `LogEntry` (also the element type of
`IngestCase.logs`, which reuses the `LogEntry` model). -/
structure LogEntry where
  run_id : String
  case_id : String
  level : String := "INFO"
  message : String
  timestamp : Option Nat := none
  step : Option String := none
  attachment_url : Option String := none
deriving Repr, DecidableEq

/-! ## Raw records and validation (Entity Validator)

A raw record is an incoming JSON object projected onto the model's fields:
every field optional, enum fields as plain strings.  Validation applies
defaults, checks required fields, enum membership, and the declared `ge=0`
bounds, reporting a `ValidationError` naming the offending field. -/

/-- Pydantic validation error, naming the offending field. -/
structure ValidationError where
  field : String
deriving Repr, DecidableEq

instance exceptDecEq [DecidableEq ε] [DecidableEq α] : DecidableEq (Except ε α) := fun x y =>
  match x, y with
  | .error a, .error b =>
    if h : a = b then .isTrue (by rw [h]) else .isFalse (by intro hc; cases hc; exact h rfl)
  | .ok a, .ok b =>
    if h : a = b then .isTrue (by rw [h]) else .isFalse (by intro hc; cases hc; exact h rfl)
  | .error _, .ok _ => .isFalse (by intro hc; cases hc)
  | .ok _, .error _ => .isFalse (by intro hc; cases hc)

/-- Raw counterpart of `TestRun`. -/
structure RawRun where
  name : Option String := none
  environment : Option String := none
  branch : Option String := none
  build : Option String := none
  status : Option String := none
  started_at : Option Nat := none
  finished_at : Option Nat := none
  duration_ms : Option Int := none
  total : Option Int := none
  passed : Option Int := none
  failed : Option Int := none
  skipped : Option Int := none
  blocked : Option Int := none
  platform : Option String := none
  tags : Option (List String) := none
deriving Repr, DecidableEq

/-- Raw counterpart of `TestSuite`. -/
structure RawSuite where
  run_id : Option String := none
  name : Option String := none
  status : Option String := none
  duration_ms : Option Int := none
  total : Option Int := none
  passed : Option Int := none
  failed : Option Int := none
  skipped : Option Int := none
  order : Option Int := none
deriving Repr, DecidableEq

/-- Raw counterpart of `TestCase`. -/
structure RawCase where
  run_id : Option String := none
  suite_id : Option String := none
  name : Option String := none
  class_name : Option String := none
  status : Option String := none
  duration_ms : Option Int := none
  error_message : Option String := none
  error_trace : Option String := none
  retries : Option Int := none
  category : Option String := none
  author : Option String := none
deriving Repr, DecidableEq

/-- Raw counterpart of `LogEntry`. -/
structure RawLog where
  run_id : Option String := none
  case_id : Option String := none
  level : Option String := none
  message : Option String := none
  timestamp : Option Nat := none
  step : Option String := none
  attachment_url : Option String := none
deriving Repr, DecidableEq

/-- Required-field check. -/
def reqField (fld : String) : Option α → Except ValidationError α
  | none => .error ⟨fld⟩
  | some a => .ok a

/-- Enum-membership check. -/
def chkEnum (fld : String) (allowed : List String) (v : String) :
    Except ValidationError String :=
  if v ∈ allowed then .ok v else .error ⟨fld⟩

/-- Non-negativity check for an optional `ge=0` field. -/
def chkNonneg (fld : String) : Option Int → Except ValidationError (Option Int)
  | none => .ok none
  | some d => if d < 0 then .error ⟨fld⟩ else .ok (some d)

/-- Non-negativity check for a defaulted `ge=0` field (default 0). -/
def chkNonnegD (fld : String) (v : Option Int) : Except ValidationError Int :=
  if v.getD 0 < 0 then .error ⟨fld⟩ else .ok (v.getD 0)

/-- Validation of a raw `TestRun` record. -/
def validateTestRun (r : RawRun) : Except ValidationError TestRun :=
  match reqField "name" r.name with
  | .error e => .error e
  | .ok name =>
  match chkEnum "status" statusValues (r.status.getD "running") with
  | .error e => .error e
  | .ok status =>
  match chkNonneg "duration_ms" r.duration_ms with
  | .error e => .error e
  | .ok duration_ms =>
  match chkNonnegD "total" r.total with
  | .error e => .error e
  | .ok total =>
  match chkNonnegD "passed" r.passed with
  | .error e => .error e
  | .ok passed =>
  match chkNonnegD "failed" r.failed with
  | .error e => .error e
  | .ok failed =>
  match chkNonnegD "skipped" r.skipped with
  | .error e => .error e
  | .ok skipped =>
  match chkNonnegD "blocked" r.blocked with
  | .error e => .error e
  | .ok blocked =>
  .ok { name, environment := r.environment, branch := r.branch, build := r.build,
        status, started_at := r.started_at, finished_at := r.finished_at,
        duration_ms, total, passed, failed, skipped, blocked,
        platform := r.platform, tags := r.tags.getD [] }

/-- Validation of a raw `TestSuite` record.  The four counters have no bound
in `schemas.py`; they only default to 0. -/
def validateTestSuite (r : RawSuite) : Except ValidationError TestSuite :=
  match reqField "run_id" r.run_id with
  | .error e => .error e
  | .ok run_id =>
  match reqField "name" r.name with
  | .error e => .error e
  | .ok name =>
  match chkEnum "status" statusValues (r.status.getD "running") with
  | .error e => .error e
  | .ok status =>
  match chkNonneg "duration_ms" r.duration_ms with
  | .error e => .error e
  | .ok duration_ms =>
  .ok { run_id, name, status, duration_ms,
        total := r.total.getD 0, passed := r.passed.getD 0,
        failed := r.failed.getD 0, skipped := r.skipped.getD 0, order := r.order }

/-- Validation of a raw `TestCase` record (`retries` has no bound). -/
def validateTestCase (r : RawCase) : Except ValidationError TestCase :=
  match reqField "run_id" r.run_id with
  | .error e => .error e
  | .ok run_id =>
  match reqField "suite_id" r.suite_id with
  | .error e => .error e
  | .ok suite_id =>
  match reqField "name" r.name with
  | .error e => .error e
  | .ok name =>
  match chkEnum "status" statusValues (r.status.getD "running") with
  | .error e => .error e
  | .ok status =>
  match chkNonneg "duration_ms" r.duration_ms with
  | .error e => .error e
  | .ok duration_ms =>
  .ok { run_id, suite_id, name, class_name := r.class_name, status, duration_ms,
        error_message := r.error_message, error_trace := r.error_trace,
        retries := r.retries.getD 0, category := r.category, author := r.author }

/-- Validation of a raw `LogEntry` record: `run_id`, `case_id` and `message`
are required, `level` defaults to INFO. -/
def validateLogEntry (r : RawLog) : Except ValidationError LogEntry :=
  match reqField "run_id" r.run_id with
  | .error e => .error e
  | .ok run_id =>
  match reqField "case_id" r.case_id with
  | .error e => .error e
  | .ok case_id =>
  match chkEnum "level" levelValues (r.level.getD "INFO") with
  | .error e => .error e
  | .ok level =>
  match reqField "message" r.message with
  | .error e => .error e
  | .ok message =>
  .ok { run_id, case_id, level, message, timestamp := r.timestamp,
        step := r.step, attachment_url := r.attachment_url }

/-! ## Ingestion payload models (`IngestCase`, `IngestSuite`, `IngestRun`)

`IngestCase.logs` reuses the `LogEntry` model, so every log inside an ingest
payload must itself carry `run_id`, `case_id` and `message`. -/

/-- Validated form of pydantic `IngestCase`. -/
structure IngestCaseM where
  name : String
  class_name : Option String := none
  status : String
  duration_ms : Option Int := none
  error_message : Option String := none
  error_trace : Option String := none
  retries : Int := 0
  category : Option String := none
  author : Option String := none
  logs : List LogEntry := []
deriving Repr, DecidableEq

/-- Validated form of pydantic `IngestSuite` (counters stay optional; the
pipeline applies `or 0` itself). -/
structure IngestSuiteM where
  name : String
  status : String
  duration_ms : Option Int := none
  total : Option Int := none
  passed : Option Int := none
  failed : Option Int := none
  skipped : Option Int := none
  order : Option Int := none
  cases : List IngestCaseM := []
deriving Repr, DecidableEq

/-- Validated form of pydantic `IngestRun`. -/
structure IngestRunM where
  name : String
  environment : Option String := none
  branch : Option String := none
  build : Option String := none
  status : String
  started_at : Option Nat := none
  finished_at : Option Nat := none
  duration_ms : Option Int := none
  platform : Option String := none
  tags : List String := []
  suites : List IngestSuiteM := []
deriving Repr, DecidableEq

/-- Raw counterpart of `IngestCase`. -/
structure RawIngestCase where
  name : Option String := none
  class_name : Option String := none
  status : Option String := none
  duration_ms : Option Int := none
  error_message : Option String := none
  error_trace : Option String := none
  retries : Option Int := none
  category : Option String := none
  author : Option String := none
  logs : Option (List RawLog) := none
deriving Repr, DecidableEq

/-- Raw counterpart of `IngestSuite`. -/
structure RawIngestSuite where
  name : Option String := none
  status : Option String := none
  duration_ms : Option Int := none
  total : Option Int := none
  passed : Option Int := none
  failed : Option Int := none
  skipped : Option Int := none
  order : Option Int := none
  cases : Option (List RawIngestCase) := none
deriving Repr, DecidableEq

/-- Raw counterpart of `IngestRun`. -/
structure RawIngestRun where
  name : Option String := none
  environment : Option String := none
  branch : Option String := none
  build : Option String := none
  status : Option String := none
  started_at : Option Nat := none
  finished_at : Option Nat := none
  duration_ms : Option Int := none
  platform : Option String := none
  tags : Option (List String) := none
  suites : Option (List RawIngestSuite) := none
deriving Repr, DecidableEq

/-- Validation of a raw `IngestCase`: `name` and `status` are required
(`status` has no default on the ingest models), `duration_ms` carries no
bound, and each element of `logs` is validated as a full `LogEntry`. -/
def validateIngestCase (r : RawIngestCase) : Except ValidationError IngestCaseM := do
  let name ← reqField "name" r.name
  let rawStatus ← reqField "status" r.status
  let status ← chkEnum "status" statusValues rawStatus
  let logs ← (r.logs.getD []).mapM validateLogEntry
  .ok { name, class_name := r.class_name, status, duration_ms := r.duration_ms,
        error_message := r.error_message, error_trace := r.error_trace,
        retries := r.retries.getD 0, category := r.category, author := r.author, logs }

/-- Validation of a raw `IngestSuite`: `name` and `status` required;
counters, `duration_ms` and `order` are unconstrained optionals. -/
def validateIngestSuite (r : RawIngestSuite) : Except ValidationError IngestSuiteM := do
  let name ← reqField "name" r.name
  let rawStatus ← reqField "status" r.status
  let status ← chkEnum "status" statusValues rawStatus
  let cases ← (r.cases.getD []).mapM validateIngestCase
  .ok { name, status, duration_ms := r.duration_ms, total := r.total,
        passed := r.passed, failed := r.failed, skipped := r.skipped,
        order := r.order, cases }

/-- Validation of a raw `IngestRun`: `name` and `status` required. -/
def validateIngestRun (r : RawIngestRun) : Except ValidationError IngestRunM := do
  let name ← reqField "name" r.name
  let rawStatus ← reqField "status" r.status
  let status ← chkEnum "status" statusValues rawStatus
  let suites ← (r.suites.getD []).mapM validateIngestSuite
  .ok { name, environment := r.environment, branch := r.branch, build := r.build,
        status, started_at := r.started_at, finished_at := r.finished_at,
        duration_ms := r.duration_ms, platform := r.platform,
        tags := r.tags.getD [], suites }

/-! ## Document store

Modelled from the spec: `database.py` is not among the sources; §2 describes
the Document Store as a collection-oriented store supporting insert
(returning a generated unique identifier in its native 24-hex format),
find-by-filter, sort, limit and update-by-id.  Each collection is a list of
id/document pairs in insertion order; `create_document` appends and draws a
fresh id from a counter. -/

/-- The four collections (`testrun`, `testsuite`, `testcase`, `logentry`)
plus the id counter. -/
structure Store where
  counter : Nat := 0
  runs : List (String × TestRun) := []
  suites : List (String × TestSuite) := []
  cases : List (String × TestCase) := []
  logs : List (String × LogEntry) := []
deriving Repr, DecidableEq

/-- Empty store. -/
def Store.empty : Store := {}

/-- Insert into `testrun`, returning the generated id. -/
def insertRun (s : Store) (r : TestRun) : Store × String :=
  ({ s with counter := s.counter + 1, runs := s.runs ++ [(genId s.counter, r)] },
   genId s.counter)

/-- Insert into `testsuite`, returning the generated id. -/
def insertSuite (s : Store) (su : TestSuite) : Store × String :=
  ({ s with counter := s.counter + 1, suites := s.suites ++ [(genId s.counter, su)] },
   genId s.counter)

/-- Insert into `testcase`, returning the generated id. -/
def insertCase (s : Store) (c : TestCase) : Store × String :=
  ({ s with counter := s.counter + 1, cases := s.cases ++ [(genId s.counter, c)] },
   genId s.counter)

/-- Insert into `logentry`, returning the generated id. -/
def insertLog (s : Store) (l : LogEntry) : Store × String :=
  ({ s with counter := s.counter + 1, logs := s.logs ++ [(genId s.counter, l)] },
   genId s.counter)

/-- Hex-character test (`ObjectId` accepts both cases). -/
def isHexC (c : Char) : Bool :=
  (48 ≤ c.toNat && c.toNat ≤ 57) || (97 ≤ c.toNat && c.toNat ≤ 102) ||
    (65 ≤ c.toNat && c.toNat ≤ 70)

/-- Well-formed ObjectId string: exactly 24 hex characters. -/
def validObjectId (s : String) : Bool :=
  s.length == 24 && s.data.all isHexC

/-- Canonical (lowercase) form of a hex id, as `str(ObjectId(v))` returns. -/
def normalizeHex (s : String) : String := ⟨s.data.map Char.toLower⟩

/-- Model of `to_object_id` (main.py): parse an id string into the store's
native id format, `none` meaning the `HTTPException(400, "Invalid id")`. -/
def to_object_id (s : String) : Option String :=
  if validObjectId s then some (normalizeHex s) else none

/-- Model of `find_one({"_id": oid})` on the `testrun` collection. -/
def findRun (s : Store) (oid : String) : Option (String × TestRun) :=
  s.runs.find? (fun x => x.1 == oid)

/-- Update-by-id on `testrun` (`update_one` touches the first match). -/
def updateFirst (key : String) (f : TestRun → TestRun) :
    List (String × TestRun) → List (String × TestRun)
  | [] => []
  | (i, r) :: rest =>
    if i == key then (i, f r) :: rest else (i, r) :: updateFirst key f rest

/-- Errors surfaced by the handlers.  `validationFailure` is a pydantic error
raised inside a handler; `serverFault` stands for any other internal fault. -/
inductive ApiError where
  | badRequest (detail : String)
  | notFound (detail : String)
  | validationFailure (fld : String)
  | serverFault (detail : String)
deriving Repr, DecidableEq

/-! ## Endpoint handlers (main.py)

Each handler takes the already-validated request body (FastAPI rejects a
body that fails pydantic validation before the handler runs, leaving the
store unchanged) and the current clock value where the handler calls
`datetime.now`. -/

/-- POST `/api/runs` (`create_run`): defaults `started_at` to now, inserts. -/
def create_run (s : Store) (run : TestRun) (now : Nat) : Store × String :=
  let data := if run.started_at.isNone then { run with started_at := some now } else run
  insertRun s data

/-- POST `/api/runs/{run_id}/suites` (`create_suite`): rejects a body whose
`run_id` differs from the path id, otherwise inserts. -/
def create_suite (s : Store) (run_id : String) (suite : TestSuite) :
    Store × Except ApiError String :=
  if suite.run_id ≠ run_id then (s, .error (.badRequest "run_id mismatch"))
  else
    let (s', i) := insertSuite s suite
    (s', .ok i)

/-- POST `/api/suites/{suite_id}/cases` (`create_case`): rejects a body whose
`suite_id` differs from the path id, otherwise inserts. -/
def create_case (s : Store) (suite_id : String) (c : TestCase) :
    Store × Except ApiError String :=
  if c.suite_id ≠ suite_id then (s, .error (.badRequest "suite_id mismatch"))
  else
    let (s', i) := insertCase s c
    (s', .ok i)

/-- POST `/api/cases/{case_id}/logs` (`add_log`): rejects a body whose
`case_id` differs from the path id; defaults `timestamp` to now; inserts. -/
def add_log (s : Store) (case_id : String) (l : LogEntry) (now : Nat) :
    Store × Except ApiError String :=
  if l.case_id ≠ case_id then (s, .error (.badRequest "case_id mismatch"))
  else
    let data := if l.timestamp.isNone then { l with timestamp := some now } else l
    let (s', i) := insertLog s data
    (s', .ok i)

/-- Body of PATCH `/api/runs/{run_id}/finish` (`RunFinishPayload`). -/
structure RunFinishPayload where
  status : Option String := none
  finished_at : Option Nat := none
  duration_ms : Option Int := none
  total : Option Int := none
  passed : Option Int := none
  failed : Option Int := none
  skipped : Option Int := none
  blocked : Option Int := none
deriving Repr, DecidableEq

/-- The `$set` document built by `finish_run`: every non-null payload field,
plus `finished_at` defaulted to now when not supplied. -/
def applyFinish (p : RunFinishPayload) (now : Nat) (r : TestRun) : TestRun :=
  let r := match p.status with | some v => { r with status := v } | none => r
  let r := match p.duration_ms with | some v => { r with duration_ms := some v } | none => r
  let r := match p.total with | some v => { r with total := v } | none => r
  let r := match p.passed with | some v => { r with passed := v } | none => r
  let r := match p.failed with | some v => { r with failed := v } | none => r
  let r := match p.skipped with | some v => { r with skipped := v } | none => r
  let r := match p.blocked with | some v => { r with blocked := v } | none => r
  { r with finished_at := some (p.finished_at.getD now) }

/-- PATCH `/api/runs/{run_id}/finish` (`finish_run`): parses the id (400 when
malformed), `$set`s the supplied fields on the matching run, then returns the
serialized run found under the id — which is `null` when no run matches; the
handler performs no existence check. -/
def finish_run (s : Store) (run_id : String) (p : RunFinishPayload) (now : Nat) :
    Store × Except ApiError (Option (String × TestRun)) :=
  match to_object_id run_id with
  | none => (s, .error (.badRequest "Invalid id"))
  | some oid =>
    let s' := { s with runs := updateFirst oid (applyFinish p now) s.runs }
    (s', .ok (findRun s' oid))

/-! ## Retrieval Assembler (`get_run_detail`) -/

/-- Assembled case: its id, document, and logs sorted by timestamp. -/
structure CaseDetail where
  id : String
  doc : TestCase
  logs : List (String × LogEntry)
deriving Repr, DecidableEq

/-- Assembled suite: its id, document, and cases in insertion order. -/
structure SuiteDetail where
  id : String
  doc : TestSuite
  cases : List CaseDetail
deriving Repr, DecidableEq

/-- Assembled run tree returned by `get_run_detail`. -/
structure RunDetail where
  id : String
  doc : TestRun
  suites : List SuiteDetail
deriving Repr, DecidableEq

/-- Sort key for `find({"run_id": ...}).sort("order", 1)`. -/
def suiteOrderLe (a b : String × TestSuite) : Bool := optLe a.2.order b.2.order

/-- Sort key for `find({"case_id": ...}).sort("timestamp", 1)`. -/
def logTsLe (a b : String × LogEntry) : Bool := optLe a.2.timestamp b.2.timestamp

/-- Cases of one suite with their sorted logs (insertion order of cases). -/
def assembleCases (s : Store) (sid : String) : List CaseDetail :=
  (s.cases.filter (fun x => x.2.suite_id == sid)).map (fun x =>
    { id := x.1, doc := x.2,
      logs := sortLe logTsLe (s.logs.filter (fun y => y.2.case_id == x.1)) })

/-- Suites referencing the *path* id string (main.py filters suites by the
raw `run_id` path parameter, not the parsed ObjectId), sorted by `order`. -/
def assembleSuites (s : Store) (run_id : String) : List SuiteDetail :=
  (sortLe suiteOrderLe (s.suites.filter (fun x => x.2.run_id == run_id))).map
    (fun x => { id := x.1, doc := x.2, cases := assembleCases s x.1 })

/-- GET `/api/runs/{run_id}` (`get_run_detail`): 400 on a malformed id, 404
when no run has the id, otherwise the assembled tree. -/
def get_run_detail (s : Store) (run_id : String) : Except ApiError RunDetail :=
  match to_object_id run_id with
  | none => .error (.badRequest "Invalid id")
  | some oid =>
    match findRun s oid with
    | none => .error (.notFound "Run not found")
    | some (rid, run) =>
      .ok { id := rid, doc := run, suites := assembleSuites s run_id }

/-! ## Ingestion Pipeline (`ingest`)

The handler re-runs pydantic validation each time it constructs a `TestRun`,
`TestSuite`, `TestCase` or `LogEntry` from payload data; a validation error
raised there aborts the whole call (partial writes are kept, no rollback)
and surfaces as `validationFailure`.  The final aggregate update targets the
run id the pipeline itself generated, on which `to_object_id` is the
identity. -/

/-- Arguments `ingest` passes to the `TestRun` constructor (counters are not
passed and default to 0; `started_at` defaults to now). -/
def ingestRunRaw (p : IngestRunM) (now : Nat) : RawRun :=
  { name := some p.name, environment := p.environment, branch := p.branch,
    build := p.build, status := some p.status,
    started_at := some (p.started_at.getD now), finished_at := p.finished_at,
    duration_ms := p.duration_ms, platform := p.platform, tags := some p.tags }

/-- Arguments `ingest` passes to the `TestSuite` constructor: counters via
`or 0`, `order` the explicit value if present else the sequence index. -/
def ingestSuiteRaw (rid : String) (idx : Nat) (su : IngestSuiteM) : RawSuite :=
  { run_id := some rid, name := some su.name, status := some su.status,
    duration_ms := su.duration_ms,
    total := some (su.total.getD 0), passed := some (su.passed.getD 0),
    failed := some (su.failed.getD 0), skipped := some (su.skipped.getD 0),
    order := some (match su.order with | some o => o | none => (idx : Int)) }

/-- Arguments `ingest` passes to the `TestCase` constructor. -/
def ingestCaseRaw (rid sid : String) (c : IngestCaseM) : RawCase :=
  { run_id := some rid, suite_id := some sid, name := some c.name,
    class_name := c.class_name, status := some c.status,
    duration_ms := c.duration_ms, error_message := c.error_message,
    error_trace := c.error_trace, retries := some c.retries,
    category := c.category, author := c.author }

/-- Arguments `ingest` passes to the `LogEntry` constructor: the generated
`run_id`/`case_id` replace whatever the payload log carried; `timestamp`
defaults to now. -/
def ingestLogRaw (rid cid : String) (now : Nat) (l : LogEntry) : RawLog :=
  { run_id := some rid, case_id := some cid, level := some l.level,
    message := some l.message, timestamp := some (l.timestamp.getD now),
    step := l.step, attachment_url := l.attachment_url }

/-- Running roll-up sums (`total = passed = failed = skipped = blocked = 0`). -/
structure Agg where
  total : Int := 0
  passed : Int := 0
  failed : Int := 0
  skipped : Int := 0
  blocked : Int := 0
deriving Repr, DecidableEq

/-- Inner loop of `ingest` over one case's logs. -/
def ingestLogs (s : Store) (rid cid : String) (now : Nat) :
    List LogEntry → Store × Option ValidationError
  | [] => (s, none)
  | l :: ls =>
    match validateLogEntry (ingestLogRaw rid cid now l) with
    | .error e => (s, some e)
    | .ok doc =>
      let (s', _) := insertLog s doc
      ingestLogs s' rid cid now ls

/-- Loop of `ingest` over one suite's cases. -/
def ingestCases (s : Store) (rid sid : String) (now : Nat) :
    List IngestCaseM → Store × Option ValidationError
  | [] => (s, none)
  | c :: cs =>
    match validateTestCase (ingestCaseRaw rid sid c) with
    | .error e => (s, some e)
    | .ok doc =>
      let (s', cid) := insertCase s doc
      match ingestLogs s' rid cid now c.logs with
      | (s'', some e) => (s'', some e)
      | (s'', none) => ingestCases s'' rid sid now cs

/-- Loop of `ingest` over the payload's suites, accumulating the roll-up
sums; `blocked` accumulates 0 for every suite. -/
def ingestSuites (s : Store) (rid : String) (now : Nat) (idx : Nat) (acc : Agg) :
    List IngestSuiteM → Store × Agg × Option ValidationError
  | [] => (s, acc, none)
  | su :: sus =>
    match validateTestSuite (ingestSuiteRaw rid idx su) with
    | .error e => (s, acc, some e)
    | .ok doc =>
      let (s', sid) := insertSuite s doc
      let acc' : Agg :=
        { total := acc.total + doc.total, passed := acc.passed + doc.passed,
          failed := acc.failed + doc.failed, skipped := acc.skipped + doc.skipped,
          blocked := acc.blocked + 0 }
      match ingestCases s' rid sid now su.cases with
      | (s'', some e) => (s'', acc', some e)
      | (s'', none) => ingestSuites s'' rid now (idx + 1) acc' sus

/-- POST `/api/ingest` (`ingest`): inserts the run, walks the nested payload
inserting suites/cases/logs, then overwrites the run's counters with the
accumulated sums.  On an internal validation error the call aborts, keeping
the partial writes and skipping the aggregate update. -/
def ingest (s : Store) (p : IngestRunM) (now : Nat) : Store × Except ApiError String :=
  match validateTestRun (ingestRunRaw p now) with
  | .error e => (s, .error (.validationFailure e.field))
  | .ok runDoc =>
    let (s₁, rid) := insertRun s runDoc
    match ingestSuites s₁ rid now 0 {} p.suites with
    | (s₂, _, some e) => (s₂, .error (.validationFailure e.field))
    | (s₂, acc, none) =>
      let s₃ := { s₂ with runs := updateFirst rid (fun r =>
        { r with total := acc.total, passed := acc.passed, failed := acc.failed,
                 skipped := acc.skipped, blocked := acc.blocked }) s₂.runs }
      (s₃, .ok rid)

/-! ## Derived definitions used by the statements -/

/-- The `TestSuite` document `ingest` stores for payload suite `su` at
sequence index `idx` (when its validation succeeds). -/
def suiteDoc (rid : String) (idx : Nat) (su : IngestSuiteM) : TestSuite :=
  { run_id := rid, name := su.name, status := su.status,
    duration_ms := su.duration_ms,
    total := su.total.getD 0, passed := su.passed.getD 0,
    failed := su.failed.getD 0, skipped := su.skipped.getD 0,
    order := some (match su.order with | some o => o | none => (idx : Int)) }

/-- The `TestCase` document `ingest` stores for payload case `c`. -/
def caseDoc (rid sid : String) (c : IngestCaseM) : TestCase :=
  { run_id := rid, suite_id := sid, name := c.name, class_name := c.class_name,
    status := c.status, duration_ms := c.duration_ms,
    error_message := c.error_message, error_trace := c.error_trace,
    retries := c.retries, category := c.category, author := c.author }

/-- The `LogEntry` document `ingest` stores for payload log `l`: generated
ids replace the payload-supplied ones, timestamp defaults to now. -/
def logDoc (rid cid : String) (now : Nat) (l : LogEntry) : LogEntry :=
  { run_id := rid, case_id := cid, level := l.level, message := l.message,
    timestamp := some (l.timestamp.getD now), step := l.step,
    attachment_url := l.attachment_url }

/-- Suite documents a successful ingest appends, in payload order. -/
def expectedSuiteDocs (rid : String) (idx : Nat) : List IngestSuiteM → List TestSuite
  | [] => []
  | su :: sus => suiteDoc rid idx su :: expectedSuiteDocs rid (idx + 1) sus

/-- Sum of an optional suite counter over a payload, absent fields as 0. -/
def sumBy (f : IngestSuiteM → Option Int) (sus : List IngestSuiteM) : Int :=
  (sus.map (fun su => (f su).getD 0)).sum

/-- Every payload log's `run_id`/`case_id` replaced by fixed strings (these
fields are required by the payload schema but never read by `ingest`). -/
def setLogIds (a b : String) (p : IngestRunM) : IngestRunM :=
  { p with suites := p.suites.map (fun su =>
      { su with cases := su.cases.map (fun c =>
          { c with logs := c.logs.map (fun l =>
              { l with run_id := a, case_id := b }) }) }) }

/-- Referential integrity: every suite's `run_id`, case's `suite_id` and
log's `case_id` resolves to a stored parent record. -/
def refIntegrityB (s : Store) : Bool :=
  s.suites.all (fun x => s.runs.any (fun r => r.1 == x.2.run_id)) &&
  s.cases.all (fun x => s.suites.any (fun su => su.1 == x.2.suite_id)) &&
  s.logs.all (fun x => s.cases.any (fun c => c.1 == x.2.case_id))

/-- One mutating boundary operation (validated body, clock value where the
handler reads the clock). -/
inductive Op where
  | createRunOp : TestRun → Nat → Op
  | createSuiteOp : String → TestSuite → Op
  | createCaseOp : String → TestCase → Op
  | addLogOp : String → LogEntry → Nat → Op
  | ingestOp : IngestRunM → Nat → Op
deriving Repr, DecidableEq

/-- Store reached after one operation (responses discarded). -/
def applyOp (s : Store) : Op → Store
  | .createRunOp r now => (create_run s r now).1
  | .createSuiteOp pid su => (create_suite s pid su).1
  | .createCaseOp pid c => (create_case s pid c).1
  | .addLogOp pid l now => (add_log s pid l now).1
  | .ingestOp p now => (ingest s p now).1

/-- Store reached after a sequence of operations. -/
def applyOps (s : Store) (ops : List Op) : Store := ops.foldl applyOp s

/-- The parent record a create/addLog body references exists in the store
(trivially true for createRun and ingest, which reference no parent). -/
def parentOkB (s : Store) : Op → Bool
  | .createSuiteOp _ su => s.runs.any (fun x => x.1 == su.run_id)
  | .createCaseOp _ c => s.suites.any (fun x => x.1 == c.suite_id)
  | .addLogOp _ l _ => s.cases.any (fun x => x.1 == l.case_id)
  | _ => true

/-- Check of `parentOkB` at every step of the sequence. -/
def opsOkB : Store → List Op → Bool
  | _, [] => true
  | s, op :: rest => parentOkB s op && opsOkB (applyOp s op) rest

/-- The aggregate overwrite `ingest` applies to the stored run at the end of
a successful call. -/
def runAggUpdate (p : IngestRunM) (r : TestRun) : TestRun :=
  { r with total := sumBy (fun su => su.total) p.suites,
           passed := sumBy (fun su => su.passed) p.suites,
           failed := sumBy (fun su => su.failed) p.suites,
           skipped := sumBy (fun su => su.skipped) p.suites,
           blocked := 0 }

/-! ## The spec's §8 scenario payload -/

/-- Raw scenario log carrying only a message, as the spec's §8 payload
writes it. -/
def scenarioLogNoIds (msg : String) : RawLog := { message := some msg }

/-- Raw scenario case with logs carrying only messages. -/
def scenarioCaseNoIds : RawIngestCase :=
  { name := some "login", status := some "passed",
    logs := some [scenarioLogNoIds "start", scenarioLogNoIds "ok"] }

/-- Raw scenario suite (`Auth`, total 2, passed 2). -/
def scenarioSuiteNoIds : RawIngestSuite :=
  { name := some "Auth", status := some "passed", total := some 2,
    passed := some 2, cases := some [scenarioCaseNoIds] }

/-- The §8 scenario payload exactly as the spec writes it: the two logs
carry only `message`. -/
def scenarioRawNoIds : RawIngestRun :=
  { name := some "Nightly", status := some "passed",
    suites := some [scenarioSuiteNoIds] }

/-- Raw scenario log amended with the `run_id`/`case_id` fields the log
schema requires (placeholder values; `ingest` discards them). -/
def scenarioLogFull (msg : String) : RawLog :=
  { run_id := some "x", case_id := some "x", message := some msg }

/-- Raw scenario case with schema-complete logs. -/
def scenarioCaseFull : RawIngestCase :=
  { name := some "login", status := some "passed",
    logs := some [scenarioLogFull "start", scenarioLogFull "ok"] }

/-- Raw scenario suite with schema-complete logs. -/
def scenarioSuiteFull : RawIngestSuite :=
  { name := some "Auth", status := some "passed", total := some 2,
    passed := some 2, cases := some [scenarioCaseFull] }

/-- The §8 scenario payload amended so each log also carries the required
`run_id`/`case_id` placeholders. -/
def scenarioRaw : RawIngestRun :=
  { name := some "Nightly", status := some "passed",
    suites := some [scenarioSuiteFull] }

/-- Parsed scenario log. -/
def scenarioLogM (msg : String) : LogEntry :=
  { run_id := "x", case_id := "x", message := msg }

/-- Parsed scenario case. -/
def scenarioCaseM : IngestCaseM :=
  { name := "login", status := "passed",
    logs := [scenarioLogM "start", scenarioLogM "ok"] }

/-- Parsed scenario suite. -/
def scenarioSuiteM : IngestSuiteM :=
  { name := "Auth", status := "passed", total := some 2, passed := some 2,
    cases := [scenarioCaseM] }

/-- The parsed form of `scenarioRaw`. -/
def scenarioPayload : IngestRunM :=
  { name := "Nightly", status := "passed", suites := [scenarioSuiteM] }

/-! ## General lemmas -/

theorem hexVal_hexChar (n : Nat) (h : n < 16) : hexVal (hexChar n) = n := by
  interval_cases n <;> rfl

theorem foldl_hex_append (l₁ l₂ : List Char) (a : Nat) :
    (l₁ ++ l₂).foldl (fun a c => 16 * a + hexVal c) a =
      l₂.foldl (fun a c => 16 * a + hexVal c)
        (l₁.foldl (fun a c => 16 * a + hexVal c) a) := by
  simp [List.foldl_append]

theorem foldl_hexDigitsAux (fuel : Nat) : ∀ (n a : Nat), n < 16 ^ fuel →
    (hexDigitsAux fuel n).foldl (fun a c => 16 * a + hexVal c) a =
      16 ^ (hexDigitsAux fuel n).length * a + n := by
  induction fuel with
  | zero =>
    intro n a h
    simp at h
    simp [hexDigitsAux, h]
  | succ fuel ih =>
    intro n a h
    by_cases hn : n < 16
    · simp [hexDigitsAux, hn, List.foldl, hexVal_hexChar n hn]
    · have hdiv : n / 16 < 16 ^ fuel := by
        rw [Nat.div_lt_iff_lt_mul (by omega)]
        calc n < 16 ^ (fuel + 1) := h
        _ = 16 ^ fuel * 16 := by ring
      simp only [hexDigitsAux, hn, if_false, foldl_hex_append]
      rw [ih (n / 16) a hdiv]
      simp [List.foldl, hexVal_hexChar (n % 16) (Nat.mod_lt _ (by omega)), List.length_append]
      rw [pow_succ]
      have := Nat.div_add_mod n 16
      ring_nf
      omega

theorem foldl_hexDigits (n : Nat) (a : Nat) :
    (hexDigits n).foldl (fun a c => 16 * a + hexVal c) a = 16 ^ (hexDigits n).length * a + n := by
  have hb : n < 16 ^ (n + 1) := by
    calc n < 16 ^ n := Nat.lt_pow_self (by omega) n
    _ ≤ 16 ^ (n + 1) := Nat.pow_le_pow_right (by omega) (by omega)
  exact foldl_hexDigitsAux (n + 1) n a hb

theorem foldl_zeros (k : Nat) :
    (List.replicate k '0').foldl (fun a c => 16 * a + hexVal c) 0 = 0 := by
  induction k with
  | zero => rfl
  | succ k ih =>
    simp [List.replicate_succ, List.foldl]
    simpa [hexVal] using ih

/-- Parsing recovers the counter from a generated id, so ids are injective. -/
theorem parseHexNat_genId (n : Nat) : parseHexNat (genId n) = n := by
  simp only [parseHexNat, genId, foldl_hex_append, foldl_zeros, foldl_hexDigits]
  ring

theorem genId_injective : Function.Injective genId := by
  intro a b h
  have : parseHexNat (genId a) = parseHexNat (genId b) := by rw [h]
  rwa [parseHexNat_genId, parseHexNat_genId] at this

theorem insertLe_perm (le : α → α → Bool) (a : α) (l : List α) :
    (insertLe le a l).Perm (a :: l) := by
  induction l with
  | nil => simp [insertLe]
  | cons b bs ih =>
    simp only [insertLe]
    by_cases h : le a b
    · simp [h]
    · simp only [h, if_false]
      exact (ih.cons b).trans (List.Perm.swap a b bs)

theorem sortLe_perm (le : α → α → Bool) (l : List α) : (sortLe le l).Perm l := by
  induction l with
  | nil => simp [sortLe]
  | cons a as ih =>
    exact (insertLe_perm le a (sortLe le as)).trans (ih.cons a)

theorem chain'_insertLe (le : α → α → Bool)
    (htot : ∀ x y, le x y = true ∨ le y x = true) (a : α) (l : List α)
    (hl : List.Chain' (fun x y => le x y = true) l) :
    List.Chain' (fun x y => le x y = true) (insertLe le a l) := by
  induction l with
  | nil => simp [insertLe]
  | cons b bs ih =>
    simp only [insertLe]
    by_cases h : le a b
    · simp only [h, if_true]
      exact hl.cons h
    · simp only [h, if_false]
      have hba : le b a = true := by
        rcases htot a b with h' | h'
        · exact absurd h' h
        · exact h'
      have hbs := hl.tail
      have hins := ih hbs
      cases bs with
      | nil =>
        simp [insertLe]
        exact hba
      | cons c cs =>
        refine List.Chain'.cons' hins ?_
        intro z hz
        simp only [insertLe] at hz
        by_cases hac : le a c
        · simp only [hac, if_true] at hz
          simp at hz
          rw [← hz]
          exact hba
        · simp only [hac, if_false] at hz
          simp at hz
          rw [← hz]
          exact List.chain'_cons.mp hl |>.1

theorem chain'_sortLe (le : α → α → Bool)
    (htot : ∀ x y, le x y = true ∨ le y x = true) (l : List α) :
    List.Chain' (fun x y => le x y = true) (sortLe le l) := by
  induction l with
  | nil => simp [sortLe]
  | cons a as ih => exact chain'_insertLe le htot a (sortLe le as) ih

/-- Sorting a list that is already (chain-)sorted is the identity. -/
theorem sortLe_of_chain' (le : α → α → Bool) (l : List α)
    (hl : List.Chain' (fun x y => le x y = true) l) : sortLe le l = l := by
  induction l with
  | nil => rfl
  | cons a as ih =>
    have has := ih hl.tail
    simp only [sortLe, has]
    cases as with
    | nil => rfl
    | cons b bs =>
      have hab : le a b = true := List.chain'_cons.mp hl |>.1
      simp [insertLe, hab]

theorem optLe_total [LinearOrder α] (x y : Option α) :
    optLe x y = true ∨ optLe y x = true := by
  cases x <;> cases y <;> simp [optLe, le_total]

/-! ## Validator inversion lemmas -/

theorem reqField_ok {α : Type} {fld : String} {v : Option α} {a : α}
    (h : reqField fld v = .ok a) : v = some a := by
  cases v with
  | none => exact absurd h (by simp [reqField])
  | some b =>
    simp only [reqField, Except.ok.injEq] at h
    rw [h]

theorem chkEnum_ok {fld : String} {allowed : List String} {v s : String}
    (h : chkEnum fld allowed v = .ok s) : s = v ∧ v ∈ allowed := by
  by_cases hm : v ∈ allowed
  · simp only [chkEnum, hm, if_true, Except.ok.injEq] at h
    exact ⟨h.symm, hm⟩
  · simp [chkEnum, hm] at h

theorem chkNonneg_ok {fld : String} {v x : Option Int}
    (h : chkNonneg fld v = .ok x) : x = v ∧ 0 ≤ v.getD 0 := by
  cases v with
  | none =>
    simp only [chkNonneg, Except.ok.injEq] at h
    simp [← h]
  | some d =>
    by_cases hd : d < 0
    · simp [chkNonneg, hd] at h
    · simp only [chkNonneg, hd, if_false, Except.ok.injEq] at h
      refine ⟨h.symm, ?_⟩
      simp only [Option.getD_some]
      omega

theorem chkNonnegD_ok {fld : String} {v : Option Int} {x : Int}
    (h : chkNonnegD fld v = .ok x) : x = v.getD 0 ∧ 0 ≤ x := by
  by_cases hd : v.getD 0 < 0
  · simp [chkNonnegD, hd] at h
  · simp only [chkNonnegD, hd, if_false, Except.ok.injEq] at h
    refine ⟨h.symm, ?_⟩
    omega

theorem validateTestRun_ok_nonneg {r : RawRun} {d : TestRun}
    (h : validateTestRun r = .ok d) :
    0 ≤ r.duration_ms.getD 0 ∧ 0 ≤ r.total.getD 0 ∧ 0 ≤ r.passed.getD 0 ∧
      0 ≤ r.failed.getD 0 ∧ 0 ≤ r.skipped.getD 0 ∧ 0 ≤ r.blocked.getD 0 := by
  unfold validateTestRun at h
  split at h
  · exact absurd h (by simp)
  rename_i name h1
  split at h
  · exact absurd h (by simp)
  rename_i status h2
  split at h
  · exact absurd h (by simp)
  rename_i dur h3
  split at h
  · exact absurd h (by simp)
  rename_i tot h4
  split at h
  · exact absurd h (by simp)
  rename_i pa h5
  split at h
  · exact absurd h (by simp)
  rename_i fa h6
  split at h
  · exact absurd h (by simp)
  rename_i sk h7
  split at h
  · exact absurd h (by simp)
  rename_i bl h8
  obtain ⟨-, hd⟩ := chkNonneg_ok h3
  obtain ⟨ht, ht0⟩ := chkNonnegD_ok h4
  obtain ⟨hp, hp0⟩ := chkNonnegD_ok h5
  obtain ⟨hf, hf0⟩ := chkNonnegD_ok h6
  obtain ⟨hs, hs0⟩ := chkNonnegD_ok h7
  obtain ⟨hb, hb0⟩ := chkNonnegD_ok h8
  exact ⟨hd, ht ▸ ht0, hp ▸ hp0, hf ▸ hf0, hs ▸ hs0, hb ▸ hb0⟩

theorem validateTestSuite_ok_nonneg {r : RawSuite} {d : TestSuite}
    (h : validateTestSuite r = .ok d) : 0 ≤ r.duration_ms.getD 0 := by
  unfold validateTestSuite at h
  split at h
  · exact absurd h (by simp)
  rename_i rid h1
  split at h
  · exact absurd h (by simp)
  rename_i name h2
  split at h
  · exact absurd h (by simp)
  rename_i status h3
  split at h
  · exact absurd h (by simp)
  rename_i dur h4
  exact (chkNonneg_ok h4).2

theorem validateTestCase_ok_nonneg {r : RawCase} {d : TestCase}
    (h : validateTestCase r = .ok d) : 0 ≤ r.duration_ms.getD 0 := by
  unfold validateTestCase at h
  split at h
  · exact absurd h (by simp)
  rename_i rid h1
  split at h
  · exact absurd h (by simp)
  rename_i sid h2
  split at h
  · exact absurd h (by simp)
  rename_i name h3
  split at h
  · exact absurd h (by simp)
  rename_i status h4
  split at h
  · exact absurd h (by simp)
  rename_i dur h5
  exact (chkNonneg_ok h5).2

/-! ## Store lemmas -/

theorem updateFirst_of_find?_none {key : String} {f : TestRun → TestRun}
    {l : List (String × TestRun)}
    (h : l.find? (fun x => x.1 == key) = none) : updateFirst key f l = l := by
  rw [List.find?_eq_none] at h
  induction l with
  | nil => rfl
  | cons a rest ih =>
    obtain ⟨i, r⟩ := a
    have hik : ¬ (i == key) = true := by simpa using h (i, r) (by simp)
    unfold updateFirst
    rw [if_neg hik]
    simp only [List.cons.injEq, true_and]
    exact ih (fun x hx => h x (by simp [hx]))

/-! ## Claims -/

/-- C3 counterexample: a raw Suite record with a negative `total` counter is
not rejected — validation succeeds and returns a normalized record, because
`TestSuite`'s counters carry no `ge=0` bound. -/
theorem suite_negative_total_accepted :
    validateTestSuite { run_id := some "r", name := some "S", total := some (-1) } =
      .ok { run_id := "r", name := "S", total := -1 } := by decide

/-- C3 (amended): validation rejects a record whose `ge=0`-bounded numeric
fields are negative (Run: `duration_ms` and the five counters; Suite and
Case: `duration_ms`), while the unbounded numeric fields (the four Suite
counters) pass through negative values unchanged. -/
theorem negative_bounded_fields_rejected :
    (∀ r : RawRun,
      (r.duration_ms.getD 0 < 0 ∨ r.total.getD 0 < 0 ∨ r.passed.getD 0 < 0 ∨
        r.failed.getD 0 < 0 ∨ r.skipped.getD 0 < 0 ∨ r.blocked.getD 0 < 0) →
      ∃ e, validateTestRun r = .error e) ∧
    (∀ r : RawSuite, r.duration_ms.getD 0 < 0 → ∃ e, validateTestSuite r = .error e) ∧
    (∀ r : RawCase, r.duration_ms.getD 0 < 0 → ∃ e, validateTestCase r = .error e) ∧
    (∀ (rid nm : String) (t pa fa sk : Int),
      validateTestSuite { run_id := some rid, name := some nm, total := some t,
                          passed := some pa, failed := some fa, skipped := some sk } =
        .ok { run_id := rid, name := nm, total := t, passed := pa,
              failed := fa, skipped := sk }) := by
  refine ⟨?_, ?_, ?_, ?_⟩
  · intro r hneg
    cases hv : validateTestRun r with
    | error e => exact ⟨e, rfl⟩
    | ok d =>
      obtain ⟨h1, h2, h3, h4, h5, h6⟩ := validateTestRun_ok_nonneg hv
      omega
  · intro r hneg
    cases hv : validateTestSuite r with
    | error e => exact ⟨e, rfl⟩
    | ok d =>
      have := validateTestSuite_ok_nonneg hv
      omega
  · intro r hneg
    cases hv : validateTestCase r with
    | error e => exact ⟨e, rfl⟩
    | ok d =>
      have := validateTestCase_ok_nonneg hv
      omega
  · intro rid nm t pa fa sk
    rfl

/-- C3 amended-claim witness at concrete records. -/
theorem negative_bounded_fields_rejected_witness :
    (∃ e, validateTestRun { name := some "R", total := some (-1) } = .error e) ∧
    (∃ e, validateTestSuite { run_id := some "r", name := some "S",
                              duration_ms := some (-5) } = .error e) ∧
    (∃ e, validateTestCase { run_id := some "r", suite_id := some "s",
                             name := some "C", duration_ms := some (-2) } = .error e) ∧
    validateTestSuite { run_id := some "r", name := some "S", total := some (-7),
                        passed := some (-1), failed := some 0, skipped := some 3 } =
      .ok { run_id := "r", name := "S", total := -7, passed := -1,
            failed := 0, skipped := 3 } := by
  obtain ⟨h1, h2, h3, h4⟩ := negative_bounded_fields_rejected
  exact ⟨h1 _ (by decide), h2 _ (by decide), h3 _ (by decide), h4 "r" "S" (-7) (-1) 0 3⟩

/-- C4 (code bug): `finish_run` on a well-formed id that matches no stored
Run does not fail NotFound — it performs no insert, leaves the store
unchanged, and returns a success result whose body is null
(`serialize_doc(None)`). -/
theorem finish_run_unknown_returns_null (s : Store) (id : String)
    (p : RunFinishPayload) (now : Nat) (hv : validObjectId id = true)
    (hn : findRun s (normalizeHex id) = none) :
    finish_run s id p now = (s, .ok none) := by
  have hupd : updateFirst (normalizeHex id) (applyFinish p now) s.runs = s.runs :=
    updateFirst_of_find?_none hn
  simp [finish_run, to_object_id, hv, hupd, findRun] at hn ⊢
  exact hn

/-- C4 witness: the empty store and the well-formed id made of 24 `a`s. -/
theorem finish_run_unknown_returns_null_witness :
    finish_run Store.empty "aaaaaaaaaaaaaaaaaaaaaaaa" {} 5 = (Store.empty, .ok none) :=
  finish_run_unknown_returns_null Store.empty "aaaaaaaaaaaaaaaaaaaaaaaa" {} 5
    (by decide) (by decide)

/-- C7: a createSuite/createCase/addLog call whose body's parent id differs
from the path id fails with the mismatch error and inserts nothing — the
store is returned unchanged. -/
theorem parent_mismatch_rejected (s : Store) (pid : String) (su : TestSuite)
    (c : TestCase) (l : LogEntry) (now : Nat) :
    (su.run_id ≠ pid →
      create_suite s pid su = (s, .error (.badRequest "run_id mismatch"))) ∧
    (c.suite_id ≠ pid →
      create_case s pid c = (s, .error (.badRequest "suite_id mismatch"))) ∧
    (l.case_id ≠ pid →
      add_log s pid l now = (s, .error (.badRequest "case_id mismatch"))) := by
  refine ⟨fun h => ?_, fun h => ?_, fun h => ?_⟩
  · simp [create_suite, h]
  · simp [create_case, h]
  · simp [add_log, h]

/-- C7 witness at concrete mismatched bodies. -/
theorem parent_mismatch_rejected_witness :
    create_suite Store.empty "b" { run_id := "a", name := "S" } =
      (Store.empty, .error (.badRequest "run_id mismatch")) ∧
    create_case Store.empty "b" { run_id := "a", suite_id := "a", name := "C" } =
      (Store.empty, .error (.badRequest "suite_id mismatch")) ∧
    add_log Store.empty "b" { run_id := "a", case_id := "a", message := "m" } 0 =
      (Store.empty, .error (.badRequest "case_id mismatch")) := by
  have h := parent_mismatch_rejected Store.empty "b" { run_id := "a", name := "S" }
    { run_id := "a", suite_id := "a", name := "C" }
    { run_id := "a", case_id := "a", message := "m" } 0
  exact ⟨h.1 (by decide), h.2.1 (by decide), h.2.2 (by decide)⟩

/-- C8: `get_run_detail` fails BadRequest on a malformed id, NotFound on a
well-formed id matching no stored Run, and never yields a server-side
fault. -/
theorem get_run_detail_error_classes (s : Store) (id : String) :
    (validObjectId id = false →
      get_run_detail s id = .error (.badRequest "Invalid id")) ∧
    (validObjectId id = true → findRun s (normalizeHex id) = none →
      get_run_detail s id = .error (.notFound "Run not found")) ∧
    (∀ msg : String, get_run_detail s id ≠ .error (.serverFault msg)) ∧
    (∀ fld : String, get_run_detail s id ≠ .error (.validationFailure fld)) := by
  refine ⟨fun hv => ?_, fun hv hn => ?_, ?_⟩
  · simp [get_run_detail, to_object_id, hv]
  · simp [get_run_detail, to_object_id, hv, hn]
  · cases hv : validObjectId id with
    | false =>
      constructor <;> intro x <;> simp [get_run_detail, to_object_id, hv]
    | true =>
      cases hn : findRun s (normalizeHex id) with
      | none =>
        constructor <;> intro x <;> simp [get_run_detail, to_object_id, hv, hn]
      | some rr =>
        constructor <;> intro x <;>
          simp [get_run_detail, to_object_id, hv, hn]

/-- C8 witness: a malformed id and an unknown well-formed id on the empty
store. -/
theorem get_run_detail_error_classes_witness :
    get_run_detail Store.empty "zz" = .error (.badRequest "Invalid id") ∧
    get_run_detail Store.empty "ffffffffffffffffffffffff" =
      .error (.notFound "Run not found") := by
  exact ⟨(get_run_detail_error_classes Store.empty "zz").1 (by decide),
         (get_run_detail_error_classes Store.empty "ffffffffffffffffffffffff").2.1
           (by decide) (by decide)⟩

/-- C2 counterexample: the spec's §8 scenario payload exactly as written
(each log carrying only `message`) is rejected by payload validation,
because `IngestCase.logs` reuses the `LogEntry` model, whose `run_id` (and
`case_id`) are required fields. -/
theorem scenario_payload_as_written_rejected :
    validateIngestRun scenarioRawNoIds = .error ⟨"run_id"⟩ := by decide

/-- C2 (amended): the §8 scenario payload with the schema-required
`run_id`/`case_id` placeholders added to each log ingests successfully and
produces exactly the claimed tree: a run with total 2, passed 2, failed 0,
skipped 0, blocked 0; one suite "Auth" with order 0; one case "login"; two
INFO logs timestamped with the ingestion time, in insertion order (also
after retrieval's timestamp sort, which keeps ties in insertion order). -/
theorem scenario_ingest_produces_claimed_tree :
    validateIngestRun scenarioRaw = .ok scenarioPayload ∧
    (ingest Store.empty scenarioPayload 1000).2 = .ok (genId 0) ∧
    (ingest Store.empty scenarioPayload 1000).1.runs.map Prod.snd =
      [{ name := "Nightly", status := "passed", started_at := some 1000,
         total := 2, passed := 2, failed := 0, skipped := 0, blocked := 0 }] ∧
    (ingest Store.empty scenarioPayload 1000).1.suites.map Prod.snd =
      [{ run_id := genId 0, name := "Auth", status := "passed",
         total := 2, passed := 2, failed := 0, skipped := 0, order := some 0 }] ∧
    (ingest Store.empty scenarioPayload 1000).1.cases.map Prod.snd =
      [{ run_id := genId 0, suite_id := genId 1, name := "login",
         status := "passed" }] ∧
    (ingest Store.empty scenarioPayload 1000).1.logs.map Prod.snd =
      [{ run_id := genId 0, case_id := genId 2, level := "INFO",
         message := "start", timestamp := some 1000 },
       { run_id := genId 0, case_id := genId 2, level := "INFO",
         message := "ok", timestamp := some 1000 }] ∧
    (assembleCases (ingest Store.empty scenarioPayload 1000).1 (genId 1)).map
        (fun cd => cd.logs.map (fun x => x.2.message)) = [["start", "ok"]] := by
  decide

/-! ## Ingest pipeline lemmas -/

theorem validateTestSuite_ingestRaw_ok {rid : String} {idx : Nat}
    {su : IngestSuiteM} {d : TestSuite}
    (h : validateTestSuite (ingestSuiteRaw rid idx su) = .ok d) :
    d = suiteDoc rid idx su := by
  unfold validateTestSuite ingestSuiteRaw at h
  simp only [reqField] at h
  split at h
  · exact absurd h (by simp)
  rename_i status hst
  split at h
  · exact absurd h (by simp)
  rename_i dur hdur
  simp only [Except.ok.injEq] at h
  obtain ⟨hs1, -⟩ := chkEnum_ok hst
  obtain ⟨hd1, -⟩ := chkNonneg_ok hdur
  rw [← h, hs1, hd1]
  simp [suiteDoc]

theorem validateTestCase_ingestRaw_ok {rid sid : String} {c : IngestCaseM}
    {d : TestCase}
    (h : validateTestCase (ingestCaseRaw rid sid c) = .ok d) :
    d = caseDoc rid sid c := by
  unfold validateTestCase ingestCaseRaw at h
  simp only [reqField] at h
  split at h
  · exact absurd h (by simp)
  rename_i status hst
  split at h
  · exact absurd h (by simp)
  rename_i dur hdur
  simp only [Except.ok.injEq] at h
  obtain ⟨hs1, -⟩ := chkEnum_ok hst
  obtain ⟨hd1, -⟩ := chkNonneg_ok hdur
  rw [← h, hs1, hd1]
  simp [caseDoc]

theorem validateLogEntry_ingestRaw_ok {rid cid : String} {now : Nat}
    {l : LogEntry} {d : LogEntry}
    (h : validateLogEntry (ingestLogRaw rid cid now l) = .ok d) :
    d = logDoc rid cid now l := by
  unfold validateLogEntry ingestLogRaw at h
  simp only [reqField] at h
  split at h
  · exact absurd h (by simp)
  rename_i level hlv
  simp only [Except.ok.injEq] at h
  obtain ⟨hl1, -⟩ := chkEnum_ok hlv
  rw [← h, hl1]
  simp [logDoc]

theorem ingestLogs_spec {rid cid : String} {now : Nat} :
    ∀ {ls : List LogEntry} {s s' : Store} {err : Option ValidationError},
      ingestLogs s rid cid now ls = (s', err) →
      s'.runs = s.runs ∧ s'.suites = s.suites ∧ s'.cases = s.cases ∧
      s.counter ≤ s'.counter ∧
      ∃ tail, s'.logs = s.logs ++ tail ∧
        ∀ x ∈ tail, ∃ l ∈ ls, x.2 = logDoc rid cid now l := by
  intro ls
  induction ls with
  | nil =>
    intro s s' err h
    simp only [ingestLogs, Prod.mk.injEq] at h
    obtain ⟨h1, -⟩ := h
    subst h1
    exact ⟨rfl, rfl, rfl, le_refl _, [], by simp, by simp⟩
  | cons l ls ih =>
    intro s s' err h
    unfold ingestLogs at h
    split at h
    · rename_i e hv
      simp only [Prod.mk.injEq] at h
      obtain ⟨h1, -⟩ := h
      subst h1
      exact ⟨rfl, rfl, rfl, le_refl _, [], by simp, by simp⟩
    · rename_i doc hv
      simp only [insertLog] at h
      obtain ⟨hr, hs, hc, hcnt, tail, hlogs, htail⟩ := ih h
      refine ⟨hr, hs, hc, by simp at hcnt; omega, (genId s.counter, doc) :: tail, ?_, ?_⟩
      · simp only [hlogs]
        simp
      · intro x hx
        rcases List.mem_cons.mp hx with hx | hx
        · subst hx
          exact ⟨l, List.mem_cons_self l ls, validateLogEntry_ingestRaw_ok hv⟩
        · obtain ⟨l2, hl2, hx2⟩ := htail x hx
          exact ⟨l2, List.mem_cons_of_mem _ hl2, hx2⟩

theorem ingestCases_spec {rid sid : String} {now : Nat} :
    ∀ {cs : List IngestCaseM} {s s' : Store} {err : Option ValidationError},
      ingestCases s rid sid now cs = (s', err) →
      s'.runs = s.runs ∧ s'.suites = s.suites ∧ s.counter ≤ s'.counter ∧
      ∃ ctail ltail, s'.cases = s.cases ++ ctail ∧ s'.logs = s.logs ++ ltail ∧
        (∀ x ∈ ctail, ∃ c ∈ cs, x.2 = caseDoc rid sid c) ∧
        (∀ x ∈ ltail, x.2.run_id = rid ∧ x.2.case_id ∈ ctail.map Prod.fst ∧
          ∃ c ∈ cs, ∃ l ∈ c.logs, x.2 = logDoc rid x.2.case_id now l) := by
  intro cs
  induction cs with
  | nil =>
    intro s s' err h
    simp only [ingestCases, Prod.mk.injEq] at h
    obtain ⟨h1, -⟩ := h
    subst h1
    exact ⟨rfl, rfl, le_refl _, [], [], by simp, by simp, by simp, by simp⟩
  | cons c cs ih =>
    intro s s' err h
    unfold ingestCases at h
    split at h
    · rename_i e hv
      simp only [Prod.mk.injEq] at h
      obtain ⟨h1, -⟩ := h
      subst h1
      exact ⟨rfl, rfl, le_refl _, [], [], by simp, by simp, by simp, by simp⟩
    · rename_i doc hv
      simp only [insertCase] at h
      split at h
      · -- log loop failed: the partial writes stay, recursion stops
        rename_i s2 e hlogs2
        obtain ⟨hr2, hs2, hc2, hcnt2, ltail, hl2, hlt2⟩ := ingestLogs_spec hlogs2
        simp only [Prod.mk.injEq] at h
        obtain ⟨h1, -⟩ := h
        subst h1
        refine ⟨hr2, hs2, by simp at hcnt2 ⊢; omega,
          [(genId s.counter, doc)], ltail, ?_, ?_, ?_, ?_⟩
        · rw [hc2]
        · rw [hl2]
        · intro x hx
          simp only [List.mem_singleton] at hx
          subst hx
          exact ⟨c, List.mem_cons_self c cs, validateTestCase_ingestRaw_ok hv⟩
        · intro x hx
          obtain ⟨l, hl, hx2⟩ := hlt2 x hx
          refine ⟨by rw [hx2]; rfl, ?_, c, List.mem_cons_self c cs, l, hl, ?_⟩
          · rw [hx2]; simp [logDoc]
          · rw [hx2]; rfl
      · rename_i s2 hlogs2
        obtain ⟨hr2, hs2, hc2, hcnt2, ltail, hl2, hlt2⟩ := ingestLogs_spec hlogs2
        obtain ⟨hr3, hs3, hcnt3, ctail, ltail2, hc3, hl3, hct3, hlt3⟩ := ih h
        refine ⟨by rw [hr3, hr2], by rw [hs3, hs2],
          by simp at hcnt2 hcnt3 ⊢; omega,
          (genId s.counter, doc) :: ctail, ltail ++ ltail2, ?_, ?_, ?_, ?_⟩
        · rw [hc3, hc2]; simp
        · rw [hl3, hl2]; simp
        · intro x hx
          rcases List.mem_cons.mp hx with hx | hx
          · subst hx
            exact ⟨c, List.mem_cons_self c cs, validateTestCase_ingestRaw_ok hv⟩
          · obtain ⟨c2, hc2m, hx2⟩ := hct3 x hx
            exact ⟨c2, List.mem_cons_of_mem _ hc2m, hx2⟩
        · intro x hx
          rcases List.mem_append.mp hx with hx | hx
          · obtain ⟨l, hl, hx2⟩ := hlt2 x hx
            refine ⟨by rw [hx2]; rfl, ?_, c, List.mem_cons_self c cs, l, hl, ?_⟩
            · rw [hx2]; simp [logDoc]
            · rw [hx2]; rfl
          · obtain ⟨hrid, hcid, c2, hc2m, l, hl, hx2⟩ := hlt3 x hx
            exact ⟨hrid, by simp [hcid], c2, List.mem_cons_of_mem _ hc2m, l, hl, hx2⟩

theorem ingestSuites_spec {rid : String} {now : Nat} :
    ∀ {sus : List IngestSuiteM} {idx : Nat} {acc : Agg} {s s' : Store} {acc' : Agg}
      {err : Option ValidationError},
      ingestSuites s rid now idx acc sus = (s', acc', err) →
      s'.runs = s.runs ∧ s.counter ≤ s'.counter ∧
      ∃ stail ctail ltail,
        s'.suites = s.suites ++ stail ∧ s'.cases = s.cases ++ ctail ∧
        s'.logs = s.logs ++ ltail ∧
        (∀ x ∈ stail, x.2.run_id = rid) ∧
        (∀ x ∈ ctail, x.2.run_id = rid ∧ x.2.suite_id ∈ stail.map Prod.fst) ∧
        (∀ x ∈ ltail, x.2.run_id = rid ∧ x.2.case_id ∈ ctail.map Prod.fst ∧
          ∃ su2 ∈ sus, ∃ c ∈ su2.cases, ∃ l ∈ c.logs,
            x.2 = logDoc rid x.2.case_id now l) := by
  intro sus
  induction sus with
  | nil =>
    intro idx acc s s' acc' err h
    simp only [ingestSuites, Prod.mk.injEq] at h
    obtain ⟨h1, -, -⟩ := h
    subst h1
    exact ⟨rfl, le_refl _, [], [], [], by simp, by simp, by simp, by simp,
      by simp, by simp⟩
  | cons su sus ih =>
    intro idx acc s s' acc' err h
    unfold ingestSuites at h
    split at h
    · rename_i e hv
      simp only [Prod.mk.injEq] at h
      obtain ⟨h1, -, -⟩ := h
      subst h1
      exact ⟨rfl, le_refl _, [], [], [], by simp, by simp, by simp, by simp,
        by simp, by simp⟩
    · rename_i doc hv
      have hdoc := validateTestSuite_ingestRaw_ok hv
      simp only [insertSuite] at h
      split at h
      · rename_i s2 e hcases
        obtain ⟨hr2, hs2, hcnt2, ctail, ltail, hc2, hl2, hct2, hlt2⟩ :=
          ingestCases_spec hcases
        simp only [Prod.mk.injEq] at h
        obtain ⟨h1, -, -⟩ := h
        subst h1
        refine ⟨hr2, by simp at hcnt2 ⊢; omega,
          [(genId s.counter, doc)], ctail, ltail, by rw [hs2], by rw [hc2],
          by rw [hl2], ?_, ?_, ?_⟩
        · intro x hx
          simp only [List.mem_singleton] at hx
          subst hx
          rw [hdoc]
          rfl
        · intro x hx
          obtain ⟨c, hc, hx2⟩ := hct2 x hx
          refine ⟨by rw [hx2]; rfl, ?_⟩
          rw [hx2]
          simp [caseDoc]
        · intro x hx
          obtain ⟨hrid, hcid, c, hc, l, hl, hx2⟩ := hlt2 x hx
          exact ⟨hrid, hcid, su, List.mem_cons_self su sus, c, hc, l, hl, hx2⟩
      · rename_i s2 hcases
        obtain ⟨hr2, hs2, hcnt2, ctail1, ltail1, hc2, hl2, hct2, hlt2⟩ :=
          ingestCases_spec hcases
        obtain ⟨hr3, hcnt3, stail2, ctail2, ltail2, hs3, hc3, hl3, hst3, hct3, hlt3⟩ :=
          ih h
        refine ⟨by rw [hr3, hr2], by simp at hcnt2 hcnt3 ⊢; omega,
          (genId s.counter, doc) :: stail2, ctail1 ++ ctail2, ltail1 ++ ltail2,
          ?_, ?_, ?_, ?_, ?_, ?_⟩
        · rw [hs3, hs2]
          simp
        · rw [hc3, hc2]
          simp
        · rw [hl3, hl2]
          simp
        · intro x hx
          rcases List.mem_cons.mp hx with hx | hx
          · subst hx
            rw [hdoc]
            rfl
          · exact hst3 x hx
        · intro x hx
          rcases List.mem_append.mp hx with hx | hx
          · obtain ⟨c, hc, hx2⟩ := hct2 x hx
            refine ⟨by rw [hx2]; rfl, ?_⟩
            rw [hx2]
            simp [caseDoc]
          · obtain ⟨hrid, hsid⟩ := hct3 x hx
            exact ⟨hrid, by simp [hsid]⟩
        · intro x hx
          rcases List.mem_append.mp hx with hx | hx
          · obtain ⟨hrid, hcid, c, hc, l, hl, hx2⟩ := hlt2 x hx
            exact ⟨hrid, by simp [hcid], su, List.mem_cons_self su sus, c, hc,
              l, hl, hx2⟩
          · obtain ⟨hrid, hcid, su2, hsu2, c, hc, l, hl, hx2⟩ := hlt3 x hx
            exact ⟨hrid, by simp [hcid], su2, List.mem_cons_of_mem _ hsu2, c, hc,
              l, hl, hx2⟩

theorem ingestSuites_agg {rid : String} {now : Nat} :
    ∀ {sus : List IngestSuiteM} {idx : Nat} {acc : Agg} {s s' : Store} {acc' : Agg},
      ingestSuites s rid now idx acc sus = (s', acc', none) →
      acc'.total = acc.total + sumBy (fun su => su.total) sus ∧
      acc'.passed = acc.passed + sumBy (fun su => su.passed) sus ∧
      acc'.failed = acc.failed + sumBy (fun su => su.failed) sus ∧
      acc'.skipped = acc.skipped + sumBy (fun su => su.skipped) sus ∧
      acc'.blocked = acc.blocked := by
  intro sus
  induction sus with
  | nil =>
    intro idx acc s s' acc' h
    simp only [ingestSuites, Prod.mk.injEq] at h
    obtain ⟨-, h2, -⟩ := h
    subst h2
    simp [sumBy]
  | cons su sus ih =>
    intro idx acc s s' acc' h
    unfold ingestSuites at h
    split at h
    · simp only [Prod.mk.injEq] at h
      obtain ⟨-, -, h3⟩ := h
      exact absurd h3 (by simp)
    · rename_i doc hv
      have hdoc := validateTestSuite_ingestRaw_ok hv
      simp only [insertSuite] at h
      split at h
      · simp only [Prod.mk.injEq] at h
        obtain ⟨-, -, h3⟩ := h
        exact absurd h3 (by simp)
      · rename_i s2 hcases
        obtain ⟨h1, h2, h3, h4, h5⟩ := ih h
        rw [hdoc] at h1 h2 h3 h4 h5
        simp only [suiteDoc] at h1 h2 h3 h4 h5
        refine ⟨?_, ?_, ?_, ?_, ?_⟩ <;> simp [sumBy] at h1 h2 h3 h4 h5 ⊢ <;> omega

theorem ingestSuites_docs {rid : String} {now : Nat} :
    ∀ {sus : List IngestSuiteM} {idx : Nat} {acc : Agg} {s s' : Store} {acc' : Agg},
      ingestSuites s rid now idx acc sus = (s', acc', none) →
      ∃ stail, s'.suites = s.suites ++ stail ∧
        stail.map Prod.snd = expectedSuiteDocs rid idx sus := by
  intro sus
  induction sus with
  | nil =>
    intro idx acc s s' acc' h
    simp only [ingestSuites, Prod.mk.injEq] at h
    obtain ⟨h1, -, -⟩ := h
    subst h1
    exact ⟨[], by simp, by simp [expectedSuiteDocs]⟩
  | cons su sus ih =>
    intro idx acc s s' acc' h
    unfold ingestSuites at h
    split at h
    · simp only [Prod.mk.injEq] at h
      obtain ⟨-, -, h3⟩ := h
      exact absurd h3 (by simp)
    · rename_i doc hv
      have hdoc := validateTestSuite_ingestRaw_ok hv
      simp only [insertSuite] at h
      split at h
      · simp only [Prod.mk.injEq] at h
        obtain ⟨-, -, h3⟩ := h
        exact absurd h3 (by simp)
      · rename_i s2 hcases
        obtain ⟨-, hsuites2, -⟩ := ingestCases_spec hcases
        obtain ⟨stail2, hs3, hmap⟩ := ih h
        refine ⟨(genId s.counter, doc) :: stail2, ?_, ?_⟩
        · rw [hs3, hsuites2]
          simp
        · simp only [List.map_cons, hmap, expectedSuiteDocs, hdoc]

/-! ## Generated-id lemmas -/

theorem isHexC_hexChar {d : Nat} (h : d < 16) : isHexC (hexChar d) = true := by
  interval_cases d <;> decide

theorem toLower_hexChar {d : Nat} (h : d < 16) : (hexChar d).toLower = hexChar d := by
  interval_cases d <;> decide

theorem hexDigitsAux_mem {fuel : Nat} :
    ∀ {n : Nat} {c : Char}, c ∈ hexDigitsAux fuel n → ∃ d, d < 16 ∧ c = hexChar d := by
  induction fuel with
  | zero => intro n c hc; simp [hexDigitsAux] at hc
  | succ fuel ih =>
    intro n c hc
    unfold hexDigitsAux at hc
    by_cases hn : n < 16
    · simp only [hn, if_true, List.mem_singleton] at hc
      exact ⟨n, hn, hc⟩
    · simp only [hn, if_false, List.mem_append, List.mem_singleton] at hc
      rcases hc with hc | hc
      · exact ih hc
      · exact ⟨n % 16, Nat.mod_lt _ (by omega), hc⟩

theorem hexDigitsAux_length_le {fuel : Nat} :
    ∀ {n k : Nat}, n < 16 ^ k → 1 ≤ k → (hexDigitsAux fuel n).length ≤ k := by
  induction fuel with
  | zero => intro n k h hk; simp [hexDigitsAux]
  | succ fuel ih =>
    intro n k h hk
    unfold hexDigitsAux
    by_cases hn : n < 16
    · simpa [hn] using hk
    · simp only [hn, if_false, List.length_append, List.length_singleton]
      have hk2 : 2 ≤ k := by
        by_contra hcon
        have : k = 1 := by omega
        subst this
        simp at h
        omega
      have hdiv : n / 16 < 16 ^ (k - 1) := by
        rw [Nat.div_lt_iff_lt_mul (by omega)]
        calc n < 16 ^ k := h
        _ = 16 ^ (k - 1) * 16 := by
              rw [← pow_succ]
              congr 1
              omega
      have := ih hdiv (by omega)
      omega

theorem genId_data (n : Nat) :
    (genId n).data = List.replicate (24 - (hexDigits n).length) '0' ++ hexDigits n := rfl

theorem validObjectId_genId {n : Nat} (h : n < 16 ^ 24) :
    validObjectId (genId n) = true := by
  have hlen : (hexDigits n).length ≤ 24 := hexDigitsAux_length_le h (by omega)
  have hslen : (genId n).length = 24 := by
    show (genId n).data.length = 24
    rw [genId_data]
    simp only [List.length_append, List.length_replicate]
    omega
  unfold validObjectId
  rw [hslen]
  rw [genId_data]
  simp only [beq_self_eq_true, Bool.true_and, List.all_append, Bool.and_eq_true]
  constructor
  · rw [List.all_eq_true]
    intro c hc
    rw [List.mem_replicate] at hc
    rw [hc.2]
    decide
  · rw [List.all_eq_true]
    intro c hc
    obtain ⟨d, hd, hcd⟩ := hexDigitsAux_mem hc
    rw [hcd]
    exact isHexC_hexChar hd

theorem map_self_of_fix {α : Type} (f : α → α) :
    ∀ l : List α, (∀ c ∈ l, f c = c) → l.map f = l := by
  intro l
  induction l with
  | nil => intro h; rfl
  | cons a l ih =>
    intro h
    simp only [List.map_cons, h a (List.mem_cons_self _ _),
      ih (fun c hc => h c (List.mem_cons_of_mem _ hc))]

theorem normalizeHex_genId (n : Nat) : normalizeHex (genId n) = genId n := by
  unfold normalizeHex
  have hfix : (genId n).data.map Char.toLower = (genId n).data := by
    refine map_self_of_fix _ _ ?_
    intro c hc
    rw [genId_data] at hc
    rcases List.mem_append.mp hc with hc | hc
    · rw [List.mem_replicate] at hc
      rw [hc.2]
      decide
    · obtain ⟨d, hd, hcd⟩ := hexDigitsAux_mem hc
      rw [hcd]
      exact toLower_hexChar hd
  rw [hfix]

theorem genId_inj {a b : Nat} (h : genId a = genId b) : a = b := by
  have := congrArg parseHexNat h
  rwa [parseHexNat_genId, parseHexNat_genId] at this

/-! ## updateFirst and find? lemmas -/

theorem updateFirst_map_fst (key : String) (f : TestRun → TestRun) :
    ∀ l : List (String × TestRun), (updateFirst key f l).map Prod.fst = l.map Prod.fst := by
  intro l
  induction l with
  | nil => rfl
  | cons p rest ih =>
    obtain ⟨i, r⟩ := p
    unfold updateFirst
    by_cases hik : (i == key) = true
    · rw [if_pos hik]
      simp
    · rw [if_neg hik]
      simp [ih]

theorem updateFirst_append_key {key : String} {f : TestRun → TestRun}
    {pre : List (String × TestRun)} {r : TestRun}
    (h : ∀ x ∈ pre, x.1 ≠ key) :
    updateFirst key f (pre ++ [(key, r)]) = pre ++ [(key, f r)] := by
  induction pre with
  | nil => simp [updateFirst]
  | cons p rest ih =>
    obtain ⟨i, q⟩ := p
    have hik : ¬ (i == key) = true := by
      simpa using h (i, q) (List.mem_cons_self _ _)
    simp only [List.cons_append]
    unfold updateFirst
    rw [if_neg hik]
    simp only [List.cons.injEq, true_and]
    exact ih (fun x hx => h x (List.mem_cons_of_mem _ hx))

theorem find?_append_key {key : String} {pre : List (String × TestRun)} {r : TestRun}
    (h : ∀ x ∈ pre, x.1 ≠ key) :
    (pre ++ [(key, r)]).find? (fun x => x.1 == key) = some (key, r) := by
  induction pre with
  | nil => simp
  | cons p rest ih =>
    obtain ⟨i, q⟩ := p
    have hik : ¬ (i == key) = true := by
      simpa using h (i, q) (List.mem_cons_self _ _)
    simp only [List.cons_append]
    rw [List.find?_cons_of_neg _ (by simpa using hik)]
    exact ih (fun x hx => h x (List.mem_cons_of_mem _ hx))

/-! ## expectedSuiteDocs lemmas -/

theorem expectedSuiteDocs_run_id {rid : String} :
    ∀ {sus : List IngestSuiteM} {idx : Nat} {d : TestSuite},
      d ∈ expectedSuiteDocs rid idx sus → d.run_id = rid := by
  intro sus
  induction sus with
  | nil => intro idx d hd; simp [expectedSuiteDocs] at hd
  | cons su sus ih =>
    intro idx d hd
    rcases List.mem_cons.mp hd with hd | hd
    · rw [hd]; rfl
    · exact ih hd

theorem expectedSuiteDocs_length {rid : String} :
    ∀ (sus : List IngestSuiteM) (idx : Nat),
      (expectedSuiteDocs rid idx sus).length = sus.length := by
  intro sus
  induction sus with
  | nil => intro idx; rfl
  | cons su sus ih => intro idx; simp [expectedSuiteDocs, ih]

theorem expectedSuiteDocs_orders_of_none {rid : String} :
    ∀ {sus : List IngestSuiteM} {idx : Nat}, (∀ su ∈ sus, su.order = none) →
      (expectedSuiteDocs rid idx sus).map (fun d => d.order) =
        (List.range' idx sus.length).map (fun i => some (Int.ofNat i)) := by
  intro sus
  induction sus with
  | nil => intro idx hord; rfl
  | cons su sus ih =>
    intro idx hord
    have hsu : su.order = none := hord su (List.mem_cons_self _ _)
    rw [List.length_cons, List.range'_succ]
    simp only [expectedSuiteDocs, List.map_cons, List.cons.injEq]
    constructor
    · simp [suiteDoc, hsu]
    · exact ih (fun x hx => hord x (List.mem_cons_of_mem _ hx))

theorem chain'_optLe_range' :
    ∀ (n idx : Nat), List.Chain'
      (fun a b => optLe a b = true)
      ((List.range' idx n).map (fun i => some (Int.ofNat i))) := by
  intro n
  induction n with
  | zero => intro idx; simp
  | succ n ih =>
    intro idx
    cases n with
    | zero => simp
    | succ m =>
      refine List.Chain'.cons ?_ (ih (idx + 1))
      simp only [optLe, decide_eq_true_eq]
      exact Int.ofNat_le.mpr (Nat.le_succ idx)

/-- Decomposition of a successful `ingest` call: the returned id is the fresh
counter id, the run is appended then aggregate-updated, and the appended
suites/cases/logs reference the generated ids. -/
theorem ingest_ok_spec {s : Store} {p : IngestRunM} {now : Nat} {s' : Store}
    {rid : String} (h : ingest s p now = (s', .ok rid)) :
    rid = genId s.counter ∧ s.counter < s'.counter ∧
    ∃ runDoc stail ctail ltail,
      s'.runs = updateFirst rid (runAggUpdate p) (s.runs ++ [(rid, runDoc)]) ∧
      s'.suites = s.suites ++ stail ∧ s'.cases = s.cases ++ ctail ∧
      s'.logs = s.logs ++ ltail ∧
      stail.map Prod.snd = expectedSuiteDocs rid 0 p.suites ∧
      (∀ x ∈ ctail, x.2.run_id = rid ∧ x.2.suite_id ∈ stail.map Prod.fst) ∧
      (∀ x ∈ ltail, x.2.run_id = rid ∧ x.2.case_id ∈ ctail.map Prod.fst ∧
        ∃ su ∈ p.suites, ∃ c ∈ su.cases, ∃ l ∈ c.logs,
          x.2 = logDoc rid x.2.case_id now l) := by
  unfold ingest at h
  split at h
  · simp only [Prod.mk.injEq] at h
    obtain ⟨-, h2⟩ := h
    exact absurd h2 (by simp)
  · rename_i runDoc hvrun
    simp only [insertRun] at h
    split at h
    · rename_i s2 acc e hsuites
      simp only [Prod.mk.injEq] at h
      obtain ⟨-, h2⟩ := h
      exact absurd h2 (by simp)
    · rename_i s2 acc hsuites
      simp only [Prod.mk.injEq] at h
      obtain ⟨h1, h2⟩ := h
      simp only [Except.ok.injEq] at h2
      subst h2
      subst h1
      obtain ⟨hruns2, hcnt2, stailA, ctailA, ltailA, hsu2, hc2, hl2, hstA, hctA, hltA⟩ :=
        ingestSuites_spec hsuites
      obtain ⟨stailB, hsuB, hmapB⟩ := ingestSuites_docs hsuites
      have hstEq : stailA = stailB :=
        List.append_cancel_left ((hsu2.symm.trans hsuB))
      subst hstEq
      obtain ⟨haT, haP, haF, haS, haB⟩ := ingestSuites_agg hsuites
      have haT2 : acc.total = sumBy (fun su => su.total) p.suites := by
        rw [haT]; show (0 : Int) + _ = _; ring
      have haP2 : acc.passed = sumBy (fun su => su.passed) p.suites := by
        rw [haP]; show (0 : Int) + _ = _; ring
      have haF2 : acc.failed = sumBy (fun su => su.failed) p.suites := by
        rw [haF]; show (0 : Int) + _ = _; ring
      have haS2 : acc.skipped = sumBy (fun su => su.skipped) p.suites := by
        rw [haS]; show (0 : Int) + _ = _; ring
      have haB2 : acc.blocked = 0 := by
        rw [haB]
      have hfun : (fun r =>
          ({ r with
             total := acc.total, passed := acc.passed, failed := acc.failed,
             skipped := acc.skipped, blocked := acc.blocked } : TestRun)) =
          runAggUpdate p := by
        funext r
        unfold runAggUpdate
        rw [haT2, haP2, haF2, haS2, haB2]
      refine ⟨rfl, by simp at hcnt2 ⊢; omega, runDoc, stailA, ctailA, ltailA,
        ?_, hsuB, hc2, hl2, hmapB, hctA, hltA⟩
      show updateFirst _ _ s2.runs = _
      rw [hruns2, hfun]

/-- C1: after a successful ingest whose generated run id is not already in
the store, the stored Run's total/passed/failed/skipped equal the sums of
the corresponding suite-level payload fields (absent fields counted 0), and
its blocked field equals 0 — regardless of the counter values the Run
carried when inserted (the aggregate update overwrites them). -/
theorem ingest_overwrites_run_counters (s : Store) (p : IngestRunM) (now : Nat)
    (s' : Store) (rid : String)
    (hfresh : ∀ x ∈ s.runs, x.1 ≠ genId s.counter)
    (h : ingest s p now = (s', .ok rid)) :
    ∃ r, findRun s' rid = some (rid, r) ∧
      r.total = sumBy (fun su => su.total) p.suites ∧
      r.passed = sumBy (fun su => su.passed) p.suites ∧
      r.failed = sumBy (fun su => su.failed) p.suites ∧
      r.skipped = sumBy (fun su => su.skipped) p.suites ∧
      r.blocked = 0 := by
  obtain ⟨hrid, -, runDoc, stail, ctail, ltail, hruns, -, -, -, -, -, -⟩ :=
    ingest_ok_spec h
  subst hrid
  rw [updateFirst_append_key hfresh] at hruns
  refine ⟨runAggUpdate p runDoc, ?_, rfl, rfl, rfl, rfl, rfl⟩
  unfold findRun
  rw [hruns]
  exact find?_append_key hfresh

/-- C1 witness: the scenario payload ingested into the empty store. -/
theorem ingest_overwrites_run_counters_witness :
    ∃ r, findRun (ingest Store.empty scenarioPayload 7).1 (genId 0) =
        some (genId 0, r) ∧
      r.total = sumBy (fun su => su.total) scenarioPayload.suites ∧
      r.passed = sumBy (fun su => su.passed) scenarioPayload.suites ∧
      r.failed = sumBy (fun su => su.failed) scenarioPayload.suites ∧
      r.skipped = sumBy (fun su => su.skipped) scenarioPayload.suites ∧
      r.blocked = 0 :=
  ingest_overwrites_run_counters Store.empty scenarioPayload 7
    (ingest Store.empty scenarioPayload 7).1 (genId 0)
    (by intro x hx; exact absurd hx (by simp [Store.empty]))
    (by decide)

/-- C9: ingesting the identical payload twice creates two run records with
distinct generated ids (the first call's id survives the second call), and
each call appends its own full tree of suites — no dedup or merge. -/
theorem ingest_not_idempotent (s : Store) (p : IngestRunM) (now₁ now₂ : Nat)
    (s₁ s₂ : Store) (i₁ i₂ : String)
    (h₁ : ingest s p now₁ = (s₁, .ok i₁))
    (h₂ : ingest s₁ p now₂ = (s₂, .ok i₂)) :
    i₁ ≠ i₂ ∧
    s₂.runs.map Prod.fst = s.runs.map Prod.fst ++ [i₁] ++ [i₂] ∧
    s₂.suites.length = s.suites.length + 2 * p.suites.length := by
  obtain ⟨hr1, hc1, rd1, st1, ct1, lt1, hruns1, hsuites1, -, -, hmap1, -, -⟩ :=
    ingest_ok_spec h₁
  obtain ⟨hr2, hc2, rd2, st2, ct2, lt2, hruns2, hsuites2, -, -, hmap2, -, -⟩ :=
    ingest_ok_spec h₂
  have hne : i₁ ≠ i₂ := by
    rw [hr1, hr2]
    intro hcon
    have := genId_inj hcon
    omega
  refine ⟨hne, ?_, ?_⟩
  · rw [hruns2, updateFirst_map_fst, List.map_append, hruns1,
      updateFirst_map_fst, List.map_append]
    simp
  · have l1 : st1.length = p.suites.length := by
      have := congrArg List.length hmap1
      simpa [expectedSuiteDocs_length] using this
    have l2 : st2.length = p.suites.length := by
      have := congrArg List.length hmap2
      simpa [expectedSuiteDocs_length] using this
    rw [hsuites2, hsuites1]
    simp only [List.length_append, l1, l2]
    omega

/-- C9 witness: the scenario payload ingested twice into the empty store. -/
theorem ingest_not_idempotent_witness :
    genId 0 ≠ genId 5 ∧
    (ingest (ingest Store.empty scenarioPayload 1).1 scenarioPayload 2).1.runs.map
        Prod.fst = Store.empty.runs.map Prod.fst ++ [genId 0] ++ [genId 5] ∧
    (ingest (ingest Store.empty scenarioPayload 1).1 scenarioPayload 2).1.suites.length =
      Store.empty.suites.length + 2 * scenarioPayload.suites.length :=
  ingest_not_idempotent Store.empty scenarioPayload 1 2
    (ingest Store.empty scenarioPayload 1).1
    (ingest (ingest Store.empty scenarioPayload 1).1 scenarioPayload 2).1
    (genId 0) (genId 5) (by decide) (by decide)

/-! ## Payload log ids are never read -/

theorem ingestLogs_setIds {rid cid : String} {now : Nat} {a b : String} :
    ∀ (ls : List LogEntry) (s : Store),
      ingestLogs s rid cid now
          (ls.map (fun l => { l with run_id := a, case_id := b })) =
        ingestLogs s rid cid now ls := by
  intro ls
  induction ls with
  | nil => intro s; rfl
  | cons l ls ih =>
    intro s
    simp only [List.map_cons]
    unfold ingestLogs
    have hraw : ingestLogRaw rid cid now { l with run_id := a, case_id := b } =
        ingestLogRaw rid cid now l := rfl
    rw [hraw]
    cases validateLogEntry (ingestLogRaw rid cid now l) with
    | error e => rfl
    | ok doc =>
      simp only [insertLog]
      exact ih _

theorem ingestCases_setIds {rid sid : String} {now : Nat} {a b : String} :
    ∀ (cs : List IngestCaseM) (s : Store),
      ingestCases s rid sid now
          (cs.map (fun c =>
            { c with logs := c.logs.map (fun l => { l with run_id := a, case_id := b }) })) =
        ingestCases s rid sid now cs := by
  intro cs
  induction cs with
  | nil => intro s; rfl
  | cons c cs ih =>
    intro s
    simp only [List.map_cons]
    unfold ingestCases
    have hraw : ingestCaseRaw rid sid
        { c with logs := c.logs.map (fun l => { l with run_id := a, case_id := b }) } =
        ingestCaseRaw rid sid c := rfl
    rw [hraw]
    cases validateTestCase (ingestCaseRaw rid sid c) with
    | error e => rfl
    | ok doc =>
      simp only [insertCase]
      rw [ingestLogs_setIds]
      cases ingestLogs
          { s with counter := s.counter + 1,
                   cases := s.cases ++ [(genId s.counter, doc)] }
          rid (genId s.counter) now c.logs with
      | mk s2 err =>
        cases err with
        | none => exact ih s2
        | some e => rfl

theorem ingestSuites_setIds {rid : String} {now : Nat} {a b : String} :
    ∀ (sus : List IngestSuiteM) (idx : Nat) (acc : Agg) (s : Store),
      ingestSuites s rid now idx acc
          (sus.map (fun su =>
            { su with cases := su.cases.map (fun c =>
                { c with logs := c.logs.map (fun l =>
                    { l with run_id := a, case_id := b }) }) })) =
        ingestSuites s rid now idx acc sus := by
  intro sus
  induction sus with
  | nil => intro idx acc s; rfl
  | cons su sus ih =>
    intro idx acc s
    simp only [List.map_cons]
    unfold ingestSuites
    have hraw : ingestSuiteRaw rid idx
        { su with cases := su.cases.map (fun c =>
            { c with logs := c.logs.map (fun l =>
                { l with run_id := a, case_id := b }) }) } =
        ingestSuiteRaw rid idx su := rfl
    rw [hraw]
    cases validateTestSuite (ingestSuiteRaw rid idx su) with
    | error e => rfl
    | ok doc =>
      simp only [insertSuite]
      rw [ingestCases_setIds]
      cases ingestCases
          { s with counter := s.counter + 1,
                   suites := s.suites ++ [(genId s.counter, doc)] }
          rid (genId s.counter) now su.cases with
      | mk s2 err =>
        cases err with
        | none => exact ih (idx + 1) _ s2
        | some e => rfl

theorem ingest_setIds (s : Store) (p : IngestRunM) (now : Nat) (a b : String) :
    ingest s (setLogIds a b p) now = ingest s p now := by
  unfold ingest
  have hraw : ingestRunRaw (setLogIds a b p) now = ingestRunRaw p now := rfl
  rw [hraw]
  cases validateTestRun (ingestRunRaw p now) with
  | error e => rfl
  | ok runDoc =>
    simp only [insertRun, setLogIds]
    rw [ingestSuites_setIds]

/-! ## Exact log attachment

Success-exact descriptions of the loops: which log documents are stored, and
under which generated case id each one is filed. -/

theorem ingestLogs_ok_docs {rid cid : String} {now : Nat} :
    ∀ {ls : List LogEntry} {s s' : Store},
      ingestLogs s rid cid now ls = (s', none) →
      s'.runs = s.runs ∧ s'.suites = s.suites ∧ s'.cases = s.cases ∧
      s'.logs.map Prod.snd = s.logs.map Prod.snd ++ ls.map (logDoc rid cid now) := by
  intro ls
  induction ls with
  | nil =>
    intro s s' h
    simp only [ingestLogs, Prod.mk.injEq] at h
    obtain ⟨h1, -⟩ := h
    subst h1
    exact ⟨rfl, rfl, rfl, by simp⟩
  | cons l ls ih =>
    intro s s' h
    unfold ingestLogs at h
    split at h
    · rename_i e hv
      simp only [Prod.mk.injEq] at h
      obtain ⟨-, h2⟩ := h
      exact absurd h2 (by simp)
    · rename_i doc hv
      simp only [insertLog] at h
      obtain ⟨hr, hs, hc, hl⟩ := ih h
      have hdoc := validateLogEntry_ingestRaw_ok hv
      refine ⟨hr, hs, hc, ?_⟩
      rw [hl]
      simp [hdoc]

theorem ingestCases_ok_docs {rid sid : String} {now : Nat} :
    ∀ {cs : List IngestCaseM} {s s' : Store},
      ingestCases s rid sid now cs = (s', none) →
      s'.runs = s.runs ∧ s'.suites = s.suites ∧
      ∃ tags : List (String × IngestCaseM),
        tags.map Prod.snd = cs ∧
        s'.cases = s.cases ++ tags.map (fun q => (q.1, caseDoc rid sid q.2)) ∧
        s'.logs.map Prod.snd = s.logs.map Prod.snd ++
          tags.flatMap (fun q => q.2.logs.map (logDoc rid q.1 now)) := by
  intro cs
  induction cs with
  | nil =>
    intro s s' h
    simp only [ingestCases, Prod.mk.injEq] at h
    obtain ⟨h1, -⟩ := h
    subst h1
    exact ⟨rfl, rfl, [], by simp, by simp, by simp⟩
  | cons c cs ih =>
    intro s s' h
    unfold ingestCases at h
    split at h
    · rename_i e hv
      simp only [Prod.mk.injEq] at h
      obtain ⟨-, h2⟩ := h
      exact absurd h2 (by simp)
    · rename_i doc hv
      have hdoc := validateTestCase_ingestRaw_ok hv
      simp only [insertCase] at h
      split at h
      · rename_i s2 e hlogs2
        simp only [Prod.mk.injEq] at h
        obtain ⟨-, h2⟩ := h
        exact absurd h2 (by simp)
      · rename_i s2 hlogs2
        obtain ⟨hr2, hs2, hc2, hl2⟩ := ingestLogs_ok_docs hlogs2
        obtain ⟨hr3, hs3, tags, htags, hc3, hl3⟩ := ih h
        refine ⟨by rw [hr3, hr2], by rw [hs3, hs2],
          (genId s.counter, c) :: tags, ?_, ?_, ?_⟩
        · simp [htags]
        · rw [hc3, hc2]
          simp [hdoc]
        · rw [hl3, hl2]
          simp [List.flatMap_cons]

theorem ingestSuites_ok_caseTags {rid : String} {now : Nat} :
    ∀ {sus : List IngestSuiteM} {idx : Nat} {acc : Agg} {s s' : Store} {acc' : Agg},
      ingestSuites s rid now idx acc sus = (s', acc', none) →
      s'.runs = s.runs ∧
      ∃ (tags : List (String × IngestCaseM)) (ctail : List (String × TestCase)),
        tags.map Prod.snd = sus.flatMap (fun su => su.cases) ∧
        s'.cases = s.cases ++ ctail ∧
        ctail.map Prod.fst = tags.map Prod.fst ∧
        (∀ q ∈ tags, ∃ sid, (q.1, caseDoc rid sid q.2) ∈ s'.cases) ∧
        s'.logs.map Prod.snd = s.logs.map Prod.snd ++
          tags.flatMap (fun q => q.2.logs.map (logDoc rid q.1 now)) := by
  intro sus
  induction sus with
  | nil =>
    intro idx acc s s' acc' h
    simp only [ingestSuites, Prod.mk.injEq] at h
    obtain ⟨h1, -, -⟩ := h
    subst h1
    exact ⟨rfl, [], [], by simp, by simp, by simp, by simp, by simp⟩
  | cons su sus ih =>
    intro idx acc s s' acc' h
    unfold ingestSuites at h
    split at h
    · simp only [Prod.mk.injEq] at h
      obtain ⟨-, -, h3⟩ := h
      exact absurd h3 (by simp)
    · rename_i doc hv
      simp only [insertSuite] at h
      split at h
      · simp only [Prod.mk.injEq] at h
        obtain ⟨-, -, h3⟩ := h
        exact absurd h3 (by simp)
      · rename_i s2 hcases
        obtain ⟨hr2, hs2, tags1, htags1, hc2, hl2⟩ := ingestCases_ok_docs hcases
        obtain ⟨hr3, tags2, ctail2, htags2, hc3, hfst3, hmem3, hl3⟩ := ih h
        refine ⟨by rw [hr3, hr2], tags1 ++ tags2,
          tags1.map (fun q => (q.1, caseDoc rid (genId s.counter) q.2)) ++ ctail2,
          ?_, ?_, ?_, ?_, ?_⟩
        · rw [List.map_append, htags1, htags2, List.flatMap_cons]
        · rw [hc3, hc2]
          simp
        · rw [List.map_append, List.map_map, List.map_append, hfst3]
          rfl
        · intro q hq
          rcases List.mem_append.mp hq with hq | hq
          · refine ⟨genId s.counter, ?_⟩
            rw [hc3, hc2]
            refine List.mem_append_left _ (List.mem_append_right _ ?_)
            exact List.mem_map_of_mem _ hq
          · exact hmem3 q hq
        · rw [hl3, hl2, List.flatMap_append]
          simp

/-- Exact attachment through a whole successful ingest call: the flattened
payload cases, in payload order, paired with the generated ids of exactly
the case records this call appended; each stored log document is its payload
log retagged with the generated run id and its own enclosing case's
generated id. -/
theorem ingest_ok_caseTags {s : Store} {p : IngestRunM} {now : Nat}
    {s' : Store} {rid : String} (h : ingest s p now = (s', .ok rid)) :
    ∃ (tags : List (String × IngestCaseM)) (ctail : List (String × TestCase)),
      tags.map Prod.snd = p.suites.flatMap (fun su => su.cases) ∧
      s'.cases = s.cases ++ ctail ∧
      ctail.map Prod.fst = tags.map Prod.fst ∧
      (∀ q ∈ tags, ∃ sid, (q.1, caseDoc rid sid q.2) ∈ s'.cases) ∧
      s'.logs.map Prod.snd = s.logs.map Prod.snd ++
        tags.flatMap (fun q => q.2.logs.map (logDoc rid q.1 now)) := by
  unfold ingest at h
  split at h
  · simp only [Prod.mk.injEq] at h
    obtain ⟨-, h2⟩ := h
    exact absurd h2 (by simp)
  · rename_i runDoc hvrun
    simp only [insertRun] at h
    split at h
    · rename_i s2 acc e hsuites
      simp only [Prod.mk.injEq] at h
      obtain ⟨-, h2⟩ := h
      exact absurd h2 (by simp)
    · rename_i s2 acc hsuites
      simp only [Prod.mk.injEq] at h
      obtain ⟨h1, h2⟩ := h
      simp only [Except.ok.injEq] at h2
      subst h2
      subst h1
      obtain ⟨-, tags, ctail, htags, hc, hfst, hmem, hl⟩ :=
        ingestSuites_ok_caseTags hsuites
      exact ⟨tags, ctail, htags, hc, hfst, hmem, hl⟩

/-- C10: after a successful ingest, the flattened payload cases pair off, in
order, with the generated ids of exactly the case records the call created,
and the stored log documents are exactly each payload case's logs retagged
(`logDoc`) with the generated run id and that enclosing case's generated id;
the `run_id`/`case_id` values carried by the payload's logs are never read —
replacing them all changes nothing — even though the payload schema requires
them to be present. -/
theorem ingest_discards_payload_log_ids :
    (∀ (s : Store) (p : IngestRunM) (now : Nat) (s' : Store) (rid : String),
      ingest s p now = (s', .ok rid) →
      ∃ (tags : List (String × IngestCaseM)) (ctail : List (String × TestCase)),
        tags.map Prod.snd = p.suites.flatMap (fun su => su.cases) ∧
        s'.cases = s.cases ++ ctail ∧
        ctail.map Prod.fst = tags.map Prod.fst ∧
        (∀ q ∈ tags, ∃ sid, (q.1, caseDoc rid sid q.2) ∈ s'.cases) ∧
        s'.logs.map Prod.snd = s.logs.map Prod.snd ++
          tags.flatMap (fun q => q.2.logs.map (logDoc rid q.1 now))) ∧
    (∀ (s : Store) (p : IngestRunM) (now : Nat) (a b : String),
      ingest s (setLogIds a b p) now = ingest s p now) ∧
    (∀ r : RawLog, r.run_id = none ∨ r.case_id = none →
      ∀ d, validateLogEntry r ≠ .ok d) := by
  refine ⟨?_, ingest_setIds, ?_⟩
  · intro s p now s' rid h
    exact ingest_ok_caseTags h
  · intro r hr d
    rcases hr with hr | hr
    · simp [validateLogEntry, reqField, hr]
    · cases hrun : r.run_id with
      | none => simp [validateLogEntry, reqField, hrun]
      | some v => simp [validateLogEntry, reqField, hrun, hr]

/-- C10 witness: the scenario payload on the empty store; replacing the
placeholder ids; and a log record lacking `run_id`. -/
theorem ingest_discards_payload_log_ids_witness :
    (∃ (tags : List (String × IngestCaseM)) (ctail : List (String × TestCase)),
      tags.map Prod.snd = scenarioPayload.suites.flatMap (fun su => su.cases) ∧
      (ingest Store.empty scenarioPayload 3).1.cases = Store.empty.cases ++ ctail ∧
      ctail.map Prod.fst = tags.map Prod.fst ∧
      (∀ q ∈ tags, ∃ sid,
        (q.1, caseDoc (genId 0) sid q.2) ∈ (ingest Store.empty scenarioPayload 3).1.cases) ∧
      (ingest Store.empty scenarioPayload 3).1.logs.map Prod.snd =
        Store.empty.logs.map Prod.snd ++
          tags.flatMap (fun q => q.2.logs.map (logDoc (genId 0) q.1 3))) ∧
    ingest Store.empty (setLogIds "p" "q" scenarioPayload) 3 =
      ingest Store.empty scenarioPayload 3 ∧
    (∀ d, validateLogEntry (scenarioLogNoIds "start") ≠ .ok d) :=
  ⟨ingest_discards_payload_log_ids.1 Store.empty scenarioPayload 3
      (ingest Store.empty scenarioPayload 3).1 (genId 0) (by decide),
   ingest_discards_payload_log_ids.2.1 Store.empty scenarioPayload 3 "p" "q",
   ingest_discards_payload_log_ids.2.2 (scenarioLogNoIds "start")
     (Or.inl (by decide))⟩

theorem expectedSuiteDocs_names {rid : String} :
    ∀ {sus : List IngestSuiteM} {idx : Nat},
      (expectedSuiteDocs rid idx sus).map (fun d => d.name) =
        sus.map (fun su => su.name) := by
  intro sus
  induction sus with
  | nil => intro idx; rfl
  | cons su sus ih =>
    intro idx
    simp only [expectedSuiteDocs, List.map_cons, List.cons.injEq]
    exact ⟨rfl, ih⟩

/-- C6: retrieval returns a run's suites sorted by `order` ascending; and
when a payload supplies no explicit suite orders, ingest stores each suite
with `order` equal to its zero-based payload position, so the retrieved
suite list equals the payload order. -/
theorem suites_sorted_and_payload_order :
    (∀ (t : Store) (id : String) (d : RunDetail), get_run_detail t id = .ok d →
      List.Chain' (fun a b => optLe a b = true)
        (d.suites.map (fun x => x.doc.order))) ∧
    (∀ (s : Store) (p : IngestRunM) (now : Nat) (s' : Store) (rid : String),
      ingest s p now = (s', .ok rid) →
      (∀ su ∈ p.suites, su.order = none) →
      s.counter < 16 ^ 24 →
      (∀ x ∈ s.runs, x.1 ≠ genId s.counter) →
      (∀ x ∈ s.suites, x.2.run_id ≠ genId s.counter) →
      ∃ d, get_run_detail s' rid = .ok d ∧
        d.suites.map (fun x => x.doc) = expectedSuiteDocs rid 0 p.suites ∧
        d.suites.map (fun x => x.doc.order) =
          (List.range' 0 p.suites.length).map (fun i => some (Int.ofNat i)) ∧
        d.suites.map (fun x => x.doc.name) = p.suites.map (fun su => su.name)) := by
  constructor
  · intro t id d hd
    unfold get_run_detail at hd
    split at hd
    · exact absurd hd (by simp)
    rename_i oid hoid
    split at hd
    · exact absurd hd (by simp)
    rename_i rr rid run hfindr
    simp only [Except.ok.injEq] at hd
    subst hd
    unfold assembleSuites
    rw [List.map_map]
    have hfn : ((fun x : SuiteDetail => x.doc.order) ∘
        (fun x : String × TestSuite =>
          ({ id := x.1, doc := x.2, cases := assembleCases t x.1 } : SuiteDetail))) =
        (fun x : String × TestSuite => x.2.order) := rfl
    rw [hfn]
    refine (List.chain'_map _).mpr ?_
    exact chain'_sortLe _
      (fun (x y : String × TestSuite) => optLe_total x.2.order y.2.order) _
  · intro s p now s' rid h hord hcnt hrfresh hsfresh
    obtain ⟨hrid, -, runDoc, stail, ctail, ltail, hruns, hsuites, -, -, hmap, -, -⟩ :=
      ingest_ok_spec h
    subst hrid
    rw [updateFirst_append_key hrfresh] at hruns
    have hfind : findRun s' (genId s.counter) =
        some (genId s.counter, runAggUpdate p runDoc) := by
      unfold findRun
      rw [hruns]
      exact find?_append_key hrfresh
    have hstail_run : ∀ x ∈ stail, x.2.run_id = genId s.counter := by
      intro x hx
      have hx2 : x.2 ∈ stail.map Prod.snd := List.mem_map_of_mem _ hx
      rw [hmap] at hx2
      exact expectedSuiteDocs_run_id hx2
    have hfilter : s'.suites.filter (fun x => x.2.run_id == genId s.counter) = stail := by
      rw [hsuites, List.filter_append]
      have h1 : s.suites.filter (fun x => x.2.run_id == genId s.counter) = [] := by
        rw [List.filter_eq_nil_iff]
        intro x hx
        simpa using hsfresh x hx
      have h2 : stail.filter (fun x => x.2.run_id == genId s.counter) = stail := by
        rw [List.filter_eq_self]
        intro x hx
        simpa using hstail_run x hx
      rw [h1, h2]
      simp
    have horders : stail.map (fun x => x.2.order) =
        (List.range' 0 p.suites.length).map (fun i => some (Int.ofNat i)) := by
      have hmm : stail.map (fun x : String × TestSuite => x.2.order) =
          (stail.map Prod.snd).map (fun d => d.order) := by
        rw [List.map_map]; rfl
      rw [hmm, hmap, expectedSuiteDocs_orders_of_none hord]
    have hchain : List.Chain'
        (fun x y : String × TestSuite => suiteOrderLe x y = true) stail := by
      have hc := chain'_optLe_range' p.suites.length 0
      rw [← horders] at hc
      exact (List.chain'_map (fun x : String × TestSuite => x.2.order)).mp hc
    have hsort : sortLe suiteOrderLe stail = stail :=
      sortLe_of_chain' suiteOrderLe stail hchain
    refine ⟨{ id := genId s.counter, doc := runAggUpdate p runDoc,
              suites := stail.map (fun x =>
                { id := x.1, doc := x.2, cases := assembleCases s' x.1 }) },
            ?_, ?_, ?_, ?_⟩
    · unfold get_run_detail
      rw [show to_object_id (genId s.counter) = some (genId s.counter) from by
        unfold to_object_id
        rw [if_pos (validObjectId_genId hcnt), normalizeHex_genId]]
      simp only [hfind]
      unfold assembleSuites
      rw [hfilter, hsort]
    · rw [List.map_map]
      have hfn : ((fun x : SuiteDetail => x.doc) ∘
          (fun x : String × TestSuite =>
            ({ id := x.1, doc := x.2, cases := assembleCases s' x.1 } : SuiteDetail))) =
          Prod.snd := rfl
      rw [hfn]
      exact hmap
    · rw [List.map_map]
      have hfn : ((fun x : SuiteDetail => x.doc.order) ∘
          (fun x : String × TestSuite =>
            ({ id := x.1, doc := x.2, cases := assembleCases s' x.1 } : SuiteDetail))) =
          (fun x : String × TestSuite => x.2.order) := rfl
      rw [hfn]
      exact horders
    · rw [List.map_map]
      have hfn : ((fun x : SuiteDetail => x.doc.name) ∘
          (fun x : String × TestSuite =>
            ({ id := x.1, doc := x.2, cases := assembleCases s' x.1 } : SuiteDetail))) =
          (fun x : String × TestSuite => x.2.name) := rfl
      rw [hfn]
      have hmm : stail.map (fun x : String × TestSuite => x.2.name) =
          (stail.map Prod.snd).map (fun d => d.name) := by
        rw [List.map_map]; rfl
      rw [hmm, hmap]
      exact expectedSuiteDocs_names

/-- C6 witness: the scenario payload (no explicit orders) on the empty
store. -/
theorem suites_sorted_and_payload_order_witness :
    ∃ d, get_run_detail (ingest Store.empty scenarioPayload 42).1 (genId 0) = .ok d ∧
      d.suites.map (fun x => x.doc) = expectedSuiteDocs (genId 0) 0 scenarioPayload.suites ∧
      d.suites.map (fun x => x.doc.order) =
        (List.range' 0 scenarioPayload.suites.length).map (fun i => some (Int.ofNat i)) ∧
      d.suites.map (fun x => x.doc.name) = scenarioPayload.suites.map (fun su => su.name) :=
  suites_sorted_and_payload_order.2 Store.empty scenarioPayload 42
    (ingest Store.empty scenarioPayload 42).1 (genId 0)
    (by decide) (by decide) (by decide)
    (by intro x hx; simp [Store.empty] at hx)
    (by intro x hx; simp [Store.empty] at hx)

/-! ## Referential integrity -/

theorem refIntegrityB_iff {s : Store} : refIntegrityB s = true ↔
    (∀ x ∈ s.suites, x.2.run_id ∈ s.runs.map Prod.fst) ∧
    (∀ x ∈ s.cases, x.2.suite_id ∈ s.suites.map Prod.fst) ∧
    (∀ x ∈ s.logs, x.2.case_id ∈ s.cases.map Prod.fst) := by
  simp [refIntegrityB, List.all_eq_true, List.any_eq_true, List.mem_map,
    beq_iff_eq, and_assoc]

/-- Either `ingest` rejects before touching the store, or it appends records
whose parent references are the ids generated by the same call. -/
theorem ingest_any_spec {s : Store} {p : IngestRunM} {now : Nat}
    {out : Store × Except ApiError String} (h : ingest s p now = out) :
    out.1 = s ∨
    ∃ stail ctail ltail,
      out.1.runs.map Prod.fst = s.runs.map Prod.fst ++ [genId s.counter] ∧
      out.1.suites = s.suites ++ stail ∧ out.1.cases = s.cases ++ ctail ∧
      out.1.logs = s.logs ++ ltail ∧
      (∀ x ∈ stail, x.2.run_id = genId s.counter) ∧
      (∀ x ∈ ctail, x.2.run_id = genId s.counter ∧
        x.2.suite_id ∈ stail.map Prod.fst) ∧
      (∀ x ∈ ltail, x.2.case_id ∈ ctail.map Prod.fst) := by
  unfold ingest at h
  split at h
  · left
    rw [← h]
  · rename_i runDoc hvrun
    simp only [insertRun] at h
    split at h
    · rename_i s2 acc e hsuites
      obtain ⟨hruns2, -, stail, ctail, ltail, hsu2, hc2, hl2, hstA, hctA, hltA⟩ :=
        ingestSuites_spec hsuites
      right
      refine ⟨stail, ctail, ltail, ?_, ?_, ?_, ?_, hstA, hctA,
        fun x hx => (hltA x hx).2.1⟩
      · rw [← h]
        show s2.runs.map Prod.fst = _
        rw [hruns2]
        simp
      · rw [← h]; exact hsu2
      · rw [← h]; exact hc2
      · rw [← h]; exact hl2
    · rename_i s2 acc hsuites
      obtain ⟨hruns2, -, stail, ctail, ltail, hsu2, hc2, hl2, hstA, hctA, hltA⟩ :=
        ingestSuites_spec hsuites
      right
      refine ⟨stail, ctail, ltail, ?_, ?_, ?_, ?_, hstA, hctA,
        fun x hx => (hltA x hx).2.1⟩
      · rw [← h]
        show (updateFirst _ _ s2.runs).map Prod.fst = _
        rw [updateFirst_map_fst, hruns2]
        simp
      · rw [← h]; exact hsu2
      · rw [← h]; exact hc2
      · rw [← h]; exact hl2

theorem applyOp_refIntegrity {s : Store} {op : Op}
    (hs : refIntegrityB s = true) (hop : parentOkB s op = true) :
    refIntegrityB (applyOp s op) = true := by
  rw [refIntegrityB_iff] at hs
  obtain ⟨hsu, hca, hlo⟩ := hs
  cases op with
  | createRunOp r now =>
    rw [refIntegrityB_iff]
    simp only [applyOp, create_run, insertRun]
    refine ⟨?_, ?_, ?_⟩ <;> intro x hx
    · rw [List.map_append]
      exact List.mem_append_left _ (hsu x hx)
    · exact hca x hx
    · exact hlo x hx
  | createSuiteOp pid su =>
    rw [refIntegrityB_iff]
    simp only [applyOp, create_suite]
    have hparent : su.run_id ∈ s.runs.map Prod.fst := by
      simp only [parentOkB, List.any_eq_true, beq_iff_eq] at hop
      obtain ⟨x, hx, he⟩ := hop
      exact List.mem_map.mpr ⟨x, hx, he⟩
    by_cases hmis : su.run_id ≠ pid
    · rw [if_pos hmis]
      exact ⟨hsu, hca, hlo⟩
    · rw [if_neg hmis]
      simp only [insertSuite]
      refine ⟨?_, ?_, ?_⟩ <;> intro x hx
      · rcases List.mem_append.mp hx with hx | hx
        · exact hsu x hx
        · simp only [List.mem_singleton] at hx
          rw [hx]
          exact hparent
      · rw [List.map_append]
        exact List.mem_append_left _ (hca x hx)
      · exact hlo x hx
  | createCaseOp pid c =>
    rw [refIntegrityB_iff]
    simp only [applyOp, create_case]
    have hparent : c.suite_id ∈ s.suites.map Prod.fst := by
      simp only [parentOkB, List.any_eq_true, beq_iff_eq] at hop
      obtain ⟨x, hx, he⟩ := hop
      exact List.mem_map.mpr ⟨x, hx, he⟩
    by_cases hmis : c.suite_id ≠ pid
    · rw [if_pos hmis]
      exact ⟨hsu, hca, hlo⟩
    · rw [if_neg hmis]
      simp only [insertCase]
      refine ⟨?_, ?_, ?_⟩ <;> intro x hx
      · exact hsu x hx
      · rcases List.mem_append.mp hx with hx | hx
        · exact hca x hx
        · simp only [List.mem_singleton] at hx
          rw [hx]
          exact hparent
      · rw [List.map_append]
        exact List.mem_append_left _ (hlo x hx)
  | addLogOp pid l now =>
    rw [refIntegrityB_iff]
    simp only [applyOp, add_log]
    have hparent : l.case_id ∈ s.cases.map Prod.fst := by
      simp only [parentOkB, List.any_eq_true, beq_iff_eq] at hop
      obtain ⟨x, hx, he⟩ := hop
      exact List.mem_map.mpr ⟨x, hx, he⟩
    by_cases hmis : l.case_id ≠ pid
    · rw [if_pos hmis]
      exact ⟨hsu, hca, hlo⟩
    · rw [if_neg hmis]
      simp only [insertLog]
      refine ⟨?_, ?_, ?_⟩ <;> intro x hx
      · exact hsu x hx
      · exact hca x hx
      · rcases List.mem_append.mp hx with hx | hx
        · exact hlo x hx
        · simp only [List.mem_singleton] at hx
          rw [hx]
          have hdata : (if l.timestamp.isNone then { l with timestamp := some now }
              else l).case_id = l.case_id := by
            split_ifs <;> rfl
          show (if l.timestamp.isNone then { l with timestamp := some now }
              else l).case_id ∈ s.cases.map Prod.fst
          rw [hdata]
          exact hparent
  | ingestOp p now =>
    rcases ingest_any_spec (rfl : ingest s p now = ingest s p now) with hsame | hspec
    · show refIntegrityB (ingest s p now).1 = true
      rw [hsame, refIntegrityB_iff]
      exact ⟨hsu, hca, hlo⟩
    · obtain ⟨stail, ctail, ltail, hruns, hsuites, hcases, hlogs, hst, hct, hlt⟩ := hspec
      show refIntegrityB (ingest s p now).1 = true
      rw [refIntegrityB_iff]
      refine ⟨?_, ?_, ?_⟩ <;> intro x hx
      · rw [hruns]
        rw [hsuites] at hx
        rcases List.mem_append.mp hx with hx | hx
        · exact List.mem_append_left _ (hsu x hx)
        · rw [hst x hx]
          exact List.mem_append_right _ (List.mem_singleton_self _)
      · rw [hsuites, List.map_append]
        rw [hcases] at hx
        rcases List.mem_append.mp hx with hx | hx
        · exact List.mem_append_left _ (hca x hx)
        · exact List.mem_append_right _ (hct x hx).2
      · rw [hcases, List.map_append]
        rw [hlogs] at hx
        rcases List.mem_append.mp hx with hx | hx
        · exact List.mem_append_left _ (hlo x hx)
        · exact List.mem_append_right _ (hlt x hx)

/-- C5 counterexample: a single createSuite call with the path and body
agreeing on a parent id that resolves to no stored Run succeeds in inserting
the suite, leaving a store that violates referential integrity. -/
theorem create_suite_inserts_dangling_reference :
    refIntegrityB (create_suite Store.empty "aaaaaaaaaaaaaaaaaaaaaaaa"
      { run_id := "aaaaaaaaaaaaaaaaaaaaaaaa", name := "S" }).1 = false := by
  decide

/-- C5 (amended): referential integrity holds after every operation sequence
in which each createSuite/createCase/addLog call's body references an
existing parent at call time; createRun and ingest (even an ingest aborted
mid-way) need no such premise, since the handlers check only path/body
agreement, never parent existence. -/
theorem ref_integrity_preserved :
    ∀ (ops : List Op) (s : Store), refIntegrityB s = true →
      opsOkB s ops = true → refIntegrityB (applyOps s ops) = true := by
  intro ops
  induction ops with
  | nil =>
    intro s hs hok
    exact hs
  | cons op ops ih =>
    intro s hs hok
    simp only [opsOkB, Bool.and_eq_true] at hok
    exact ih _ (applyOp_refIntegrity hs hok.1) hok.2

/-- C5 witness: createRun, a createSuite referencing it, then a full ingest,
from the empty store. -/
theorem ref_integrity_preserved_witness :
    refIntegrityB (applyOps Store.empty
      [Op.createRunOp { name := "R" } 0,
       Op.createSuiteOp (genId 0) { run_id := genId 0, name := "S" },
       Op.ingestOp scenarioPayload 5]) = true :=
  ref_integrity_preserved
    [Op.createRunOp { name := "R" } 0,
     Op.createSuiteOp (genId 0) { run_id := genId 0, name := "S" },
     Op.ingestOp scenarioPayload 5]
    Store.empty (by decide) (by decide)

end Backend
